import Mathlib

/-!
# Verification of the coman lock-compilation and drift-reconciliation engine

Shallow embedding of the core of `coman` (src/coman/lock.py, src/coman/env.py):
the platform-selector preprocessor, the unsatisfiable-error diagnostics parser,
the lock compiler, the hash-based drift reconciler and the install decision.

Python strings are modelled as Lean `String`/`List Char` (the inputs of interest
are ASCII); Python exceptions (`RuntimeError`, `KeyError`, `IndexError`) are
modelled as `Option`/`none`; `exit(1)` in the install flow is modelled as an
explicit event in a trace.  Dictionaries are modelled as association lists with
Python's insert-or-overwrite semantics.
-/

namespace Coman

/-! ## Python string primitives -/

/-- ASCII whitespace characters stripped by Python `str.strip` and matched by `\s`. -/
def pyIsSpace (c : Char) : Bool :=
  c = ' ' || c = '\t' || c = '\n' || c = '\x0d' || c = '\x0b' || c = '\x0c'

/-- Python `str.lstrip()` on the character list. -/
def pyLstripL (l : List Char) : List Char :=
  l.dropWhile pyIsSpace

/-- Python `str.strip()` on the character list. -/
def pyStripL (l : List Char) : List Char :=
  ((l.dropWhile pyIsSpace).reverse.dropWhile pyIsSpace).reverse

/-- Python `str.strip()`. -/
def pyStrip (s : String) : String :=
  (pyStripL s.data).asString

/-- Does `pat` occur at the head of `l`? (`List.isPrefixOf` semantics, spelled out.) -/
def headMatch : List Char → List Char → Bool
  | [], _ => true
  | _ :: _, [] => false
  | p :: ps, c :: cs => p = c && headMatch ps cs

/-- Split `l` at the first occurrence of `pat`: returns `(before, after)` where
`l = before ++ pat ++ after`, or `none` when `pat` does not occur.
Models Python `str.find`/`str.partition`. -/
def findSub (pat : List Char) : List Char → Option (List Char × List Char)
  | [] => if pat = [] then some ([], []) else none
  | c :: cs =>
    if headMatch pat (c :: cs) then some ([], (c :: cs).drop pat.length)
    else match findSub pat cs with
      | some (pre, post) => some (c :: pre, post)
      | none => none

/-- Worker for `pyReplaceL`, structurally recursive on a step budget (each
step consumes at least one character, so a budget of the input length is
enough). -/
def pyReplaceGo (old new : List Char) : Nat → List Char → List Char
  | 0, l => l
  | _, [] => []
  | Nat.succ fuel, c :: cs =>
    if headMatch old (c :: cs) && old ≠ [] then
      new ++ pyReplaceGo old new fuel ((c :: cs).drop old.length)
    else
      c :: pyReplaceGo old new fuel cs

/-- Python `str.replace(old, new)`: replace every non-overlapping occurrence,
scanning left to right and resuming after the replaced occurrence. -/
def pyReplaceL (old new l : List Char) : List Char :=
  pyReplaceGo old new l.length l

/-- Python `str.splitlines()` (restricted to the line breaks `\n`, `\r`, `\r\n`,
the only ones occurring in this engine's inputs). -/
def pySplitlinesL : List Char → List (List Char)
  | [] => []
  | '\x0d' :: '\n' :: rest => [] :: pySplitlinesL rest
  | '\x0d' :: rest => [] :: pySplitlinesL rest
  | '\n' :: rest => [] :: pySplitlinesL rest
  | c :: rest =>
    match pySplitlinesL rest with
    | [] => [[c]]
    | l :: ls => (c :: l) :: ls

/-- A corrected `splitlines`: Python emits the line *before* each break, so we
fold the character list from the left instead.  `pySplitlines "a\nb" = ["a", "b"]`,
`pySplitlines "a\n" = ["a"]`, `pySplitlines "" = []`. -/
def pySplitlines (s : String) : List String :=
  (pySplitlinesL s.data).map List.asString

/-- Python `str.endswith` for `String`s. -/
def pyEndsWith (s suffix : String) : Bool :=
  suffix.data.isSuffixOf s.data

/-- First component of Python `str.partition(sep)`: the part before the first
occurrence of `sep` (the whole string when `sep` does not occur). -/
def pyPartitionBefore (s sep : String) : String :=
  match findSub sep.data s.data with
  | some (pre, _) => pre.asString
  | none => s

/-! ## `fn_to_dist_name` (src/coman/lock.py lines 220-227)

```python
def fn_to_dist_name(fn: str) -> str:
    if fn.endswith(".conda"):
        fn, _, _ = fn.partition(".conda")
    elif fn.endswith(".tar.bz2"):
        fn, _, _ = fn.partition(".tar.bz2")
    else:
        raise RuntimeError(f"unexpected file type {fn}", fn)
    return fn
```
`none` models the `RuntimeError`. -/

def fn_to_dist_name (fn : String) : Option String :=
  if pyEndsWith fn ".conda" then
    some (pyPartitionBefore fn ".conda")
  else if pyEndsWith fn ".tar.bz2" then
    some (pyPartitionBefore fn ".tar.bz2")
  else
    none

/-! ## The install decision (src/coman/env.py, `env_install`, lines 519-570)

```python
    if prune is None:
        prune = (use_pip and conda_changed) or pip_changed
    ...
    if force or prune or conda_changed:
        _env_install_conda(conda, prune)
```
and in `_env_install_conda` (lines 468-490):
```python
    args = ["create" if prune or not conda.env.prefix.exists() else "install", ...]
```
-/

/-- Default prune decision when `--prune` is not given
(`prune = (use_pip and conda_changed) or pip_changed`). -/
def pruneDefault (use_pip conda_changed pip_changed : Bool) : Bool :=
  (use_pip && conda_changed) || pip_changed

/-- The effective prune flag of `env_install`. -/
def envInstallPrune (prune : Option Bool) (use_pip conda_changed pip_changed : Bool) : Bool :=
  prune.getD (pruneDefault use_pip conda_changed pip_changed)

/-- What happens to the conda (system-package) subsystem:
`none` = no install at all, `some true` = full recreate (`create`),
`some false` = incremental update (`install`).  `prefixExists` is
`conda.env.prefix.exists()`. -/
def condaAction (force pruneEff conda_changed prefixExists : Bool) : Option Bool :=
  if force || pruneEff || conda_changed then
    some (pruneEff || !prefixExists)
  else
    none

/-! ## The platform-selector preprocessor (src/coman/env.py lines 96-117)

```python
def filter_platform_selectors(content: str, platform) -> Iterator[str]:
    platform_sel = { "linux-64": {"linux64", "unix", "linux"}, ... }
    sel_pat = re.compile(r"(.+?)\s*(#.*)?\[([^\[\]]+)\](?(2)[^\(\)]*)$")
    for line in content.splitlines(keepends=False):
        if line.lstrip().startswith("#"):
            continue
        m = sel_pat.match(line)
        if m:
            cond = m.group(3)
            if cond == platform or cond in platform_sel[platform]:
                yield line
        else:
            yield line
```

The regex `sel_pat` is embedded as an explicit backtracking matcher returning
group 3 of the first match in Python's backtracking order:
`(.+?)` is lazy (shortest prefix first), `\s*` and `.*` are greedy (longest
first), the optional `(#.*)?` tries the present branch first, and the
conditional `(?(2)...)` permits a non-paren tail only when group 2 matched. -/

/-- Matches `([^\[\]]+)\]` at the head of `post` (the text right after a `[`):
returns the bracket-free run (group 3) and the tail after the closing `]`.
Backtracking over the greedy `[^\[\]]+` is vacuous: shorter runs end on a
non-bracket character, so only the maximal run can be followed by `]`. -/
def bracketTail (post : List Char) : Option (List Char × List Char) :=
  let run := post.takeWhile (fun c => !(c = '[' || c = ']'))
  if run.isEmpty then none
  else match post.drop run.length with
    | ']' :: rest => some (run, rest)
    | _ => none

/-- All splits `(pre, suf)` of a list with `pre ++ suf = l`, in order of
increasing `pre` length. -/
def splits : List Char → List (List Char × List Char)
  | [] => [([], [])]
  | c :: cs => ([], c :: cs) :: (splits cs).map (fun p => (c :: p.1, p.2))

/-- First `some` produced by `f` along the list (backtracking order). -/
def firstSome (f : List Char × List Char → Option (List Char)) :
    List (List Char × List Char) → Option (List Char)
  | [] => none
  | a :: as => (f a).orElse (fun _ => firstSome f as)

/-- `(#.*)?` present branch, after the `#`: `.*\[([^\[\]]+)\](?(2)[^\(\)]*)$`.
`.*` is greedy, so the rightmost `[` that completes a match wins; the consumed
part may not contain a newline (`.` does not match `\n`). -/
def tryG2 (t : List Char) : Option (List Char) :=
  firstSome (fun p =>
    match p with
    | (pre, '[' :: post) =>
      if pre.all (fun c => c ≠ '\n') then
        match bracketTail post with
        | some (g3, tail) => if tail.all (fun c => !(c = '(' || c = ')')) then some g3 else none
        | none => none
      else none
    | _ => none) (splits t).reverse

/-- `(#.*)?` absent branch: `\[([^\[\]]+)\]$` must close the line (the
conditional `(?(2)...)` contributes nothing when group 2 is missing). -/
def tryNoG2 (t : List Char) : Option (List Char) :=
  match t with
  | '[' :: post =>
    (match bracketTail post with
     | some (g3, tail) => if tail = [] then some g3 else none
     | none => none)
  | _ => none

/-- Tails of `t` after the greedy `\s*`, longest consumption first. -/
def spaceTails (t : List Char) : List (List Char) :=
  let m := (t.takeWhile pyIsSpace).length
  (List.range (m + 1)).map (fun k => t.drop (m - k))

/-- The part of the pattern after group 1: `\s*(#.*)?\[([^\[\]]+)\](?(2)[^\(\)]*)$`. -/
def trySuffix (t : List Char) : Option (List Char) :=
  firstSome (fun p =>
    (match p.2 with
     | '#' :: t2 => tryG2 t2
     | _ => none).orElse (fun _ => tryNoG2 p.2))
    ((spaceTails t).map (fun t2 => ([], t2)))

/-- `sel_pat.match(line)`, returning group 3 of the first match in backtracking
order, or `none` when the line does not match.  The lazy `(.+?)` consumes one
more non-newline character each time the rest of the pattern fails. -/
def selMatch : List Char → Option (List Char)
  | [] => none
  | c :: rest =>
    if c = '\n' then none
    else (trySuffix rest).orElse (fun _ => selMatch rest)

/-- The `platform_sel` alias table (a Python dict of sets; sets are modelled as
lists, only membership is ever used).  `none` models a missing key
(`platform_sel[platform]` raising `KeyError`). -/
def platform_sel (platform : String) : Option (List String) :=
  if platform = "linux-64" then some ["linux64", "unix", "linux"]
  else if platform = "linux-aarch64" then some ["aarch64", "unix", "linux"]
  else if platform = "linux-ppc64le" then some ["ppc64le", "unix", "linux"]
  else if platform = "osx-64" then some ["osx", "osx64", "unix"]
  else if platform = "osx-arm64" then some ["arm64", "osx", "unix"]
  else if platform = "win-64" then some ["win", "win64"]
  else none

/-- One loop iteration of `filter_platform_selectors`:
`none` = `KeyError` escapes, `some none` = the line is not yielded,
`some (some l)` = the line `l` is yielded.  Python short-circuits
`cond == platform or cond in platform_sel[platform]`, so the table is only
consulted when `cond` differs from the target platform. -/
def selLine (platform line : String) : Option (Option String) :=
  if headMatch "#".data (pyLstripL line.data) then some none
  else match selMatch line.data with
    | some cond =>
      if cond.asString = platform then some (some line)
      else
        (match platform_sel platform with
         | some aliases => if cond.asString ∈ aliases then some (some line) else some none
         | none => none)
    | none => some (some line)

/-- The generator loop of `filter_platform_selectors` over the split lines. -/
def filterLines (platform : String) : List String → Option (List String)
  | [] => some []
  | l :: ls =>
    match selLine platform l with
    | none => none
    | some none => filterLines platform ls
    | some (some s) => (filterLines platform ls).map (fun rest => s :: rest)

/-- `filter_platform_selectors(content, platform)` as a list of yielded lines;
`none` models the `KeyError` for a target platform missing from the table. -/
def filter_platform_selectors (content platform : String) : Option (List String) :=
  filterLines platform (pySplitlines content)

/-- Selector expressions the spec considers known: the platform ids and every
member of some alias set. -/
def knownSelectorExpr (e : String) : Bool :=
  e ∈ (["linux-64", "linux-aarch64", "linux-ppc64le", "osx-64", "osx-arm64", "win-64"] : List String)
  || e ∈ (["linux64", "unix", "linux", "aarch64", "ppc64le", "osx", "osx64", "arm64",
           "win", "win64"] : List String)

/-! ## Lemmas and theorems for claims C4 and C5 -/

theorem selLine_keep_no_selector (platform line : String)
    (hc : headMatch "#".data (pyLstripL line.data) = false)
    (hm : selMatch line.data = none) :
    selLine platform line = some (some line) := by
  simp [selLine, hc, hm]

theorem mem_filterLines_of_no_selector (platform : String) :
    ∀ (ls : List String) (out : List String),
      filterLines platform ls = some out →
      ∀ line ∈ ls, headMatch "#".data (pyLstripL line.data) = false →
        selMatch line.data = none → line ∈ out := by
  intro ls
  induction ls with
  | nil => intro out _ line hl; simp at hl
  | cons l ls ih =>
    intro out h line hl hc hm
    rcases List.mem_cons.mp hl with rfl | hl2
    · rw [show filterLines platform (line :: ls)
            = (filterLines platform ls).map (fun rest => line :: rest) by
          simp [filterLines, selLine_keep_no_selector platform line hc hm]] at h
      cases hr : filterLines platform ls with
      | none => rw [hr] at h; simp at h
      | some rest =>
        rw [hr] at h
        simp only [Option.map_some', Option.some.injEq] at h
        subst h; exact List.mem_cons_self _ _
    · unfold filterLines at h
      cases hsl : selLine platform l with
      | none => rw [hsl] at h; simp at h
      | some r =>
        rw [hsl] at h
        cases r with
        | none => exact ih out h line hl2 hc hm
        | some s =>
          cases hr : filterLines platform ls with
          | none => rw [hr] at h; simp at h
          | some rest =>
            rw [hr] at h
            simp only [Option.map_some', Option.some.injEq] at h
            subst h
            exact List.mem_cons_of_mem _ (ih rest hr line hl2 hc hm)

theorem selLine_ne_none (platform : String) (als : List String) (line : String)
    (hp : platform_sel platform = some als) :
    selLine platform line ≠ none := by
  unfold selLine
  split
  · simp
  · cases hm : selMatch line.data with
    | none => simp
    | some cond => simp only [hp]; split <;> [simp; split <;> simp]

theorem filterLines_ne_none (platform : String) (als : List String)
    (hp : platform_sel platform = some als) :
    ∀ ls : List String, filterLines platform ls ≠ none := by
  intro ls
  induction ls with
  | nil => simp [filterLines]
  | cons l ls ih =>
    unfold filterLines
    cases hsl : selLine platform l with
    | none => exact absurd hsl (selLine_ne_none platform als l hp)
    | some r =>
      cases r with
      | none => exact ih
      | some s =>
        cases hr : filterLines platform ls with
        | none => exact absurd hr ih
        | some rest => simp

/-- C4 counterexample: against the "linux-64" platform, the kept output for
`"foo =1.0  # [linux64]"` is the original line verbatim, *not* the claim's
selector-stripped `"foo =1.0"` (the code yields `line`, never `m.group(1)`). -/
theorem filter_platform_selectors_claim_counterexample :
    filter_platform_selectors "foo =1.0  # [linux64]" "linux-64"
        = some ["foo =1.0  # [linux64]"] ∧
    (["foo =1.0  # [linux64]"] : List String) ≠ (["foo =1.0"] : List String) := by
  exact ⟨by decide, by decide⟩

/-- C4 amended: the line `"foo =1.0  # [linux64]"` preprocessed against
"linux-64" is kept *verbatim* (selector still attached); against "osx-64" it is
dropped; and every non-comment line that carries no selector (the regex does
not match) is kept for every platform for which the preprocessor returns at
all. -/
theorem filter_platform_selectors_behavior :
    filter_platform_selectors "foo =1.0  # [linux64]" "linux-64"
        = some ["foo =1.0  # [linux64]"] ∧
    filter_platform_selectors "foo =1.0  # [linux64]" "osx-64" = some [] ∧
    ∀ (content platform : String) (out : List String) (line : String),
      filter_platform_selectors content platform = some out →
      line ∈ pySplitlines content →
      headMatch "#".data (pyLstripL line.data) = false →
      selMatch line.data = none →
      line ∈ out := by
  refine ⟨by decide, by decide, ?_⟩
  intro content platform out line h hl hc hm
  exact mem_filterLines_of_no_selector platform (pySplitlines content) out h line hl hc hm

/-- Witness for the amended C4 at a concrete no-selector line. -/
theorem filter_platform_selectors_behavior_witness :
    filter_platform_selectors "bar =2.0" "linux-64" = some ["bar =2.0"] ∧
    ("bar =2.0" : String) ∈ (["bar =2.0"] : List String) :=
  ⟨by decide,
   filter_platform_selectors_behavior.2.2 "bar =2.0" "linux-64" ["bar =2.0"] "bar =2.0"
     (by decide) (by decide) (by decide) (by decide)⟩

/-- C5 counterexample: the selector expression `"foo64"` names no known
platform or alias set, yet preprocessing `"foo  # [foo64]"` against "linux-64"
raises no error — the line is silently dropped (`some []`), because
`platform_sel` is indexed by the *target platform*, never by the selector
expression. -/
theorem unknown_selector_expr_counterexample :
    selMatch ("foo  # [foo64]").data = some ("foo64".data) ∧
    knownSelectorExpr "foo64" = false ∧
    filter_platform_selectors "foo  # [foo64]" "linux-64" = some [] := by
  exact ⟨by decide, by decide, by decide⟩

/-- C5 amended: for every *known* target platform the preprocessor never
raises, whatever the input; a selector expression that differs from the target
platform and is outside the platform's alias set — in particular every unknown
expression — makes the line silently dropped.  (A `KeyError` can only arise
from an unknown *target platform* combined with a selector-carrying line.) -/
theorem unknown_selector_expr_behavior :
    (∀ (platform : String) (als : List String) (content : String),
      platform_sel platform = some als →
      filter_platform_selectors content platform ≠ none) ∧
    (∀ (platform : String) (als : List String) (line : String) (cond : List Char),
      platform_sel platform = some als →
      headMatch "#".data (pyLstripL line.data) = false →
      selMatch line.data = some cond →
      cond.asString ≠ platform →
      cond.asString ∉ als →
      selLine platform line = some none) := by
  constructor
  · intro platform als content hp
    exact filterLines_ne_none platform als hp (pySplitlines content)
  · intro platform als line cond hp hc hm hne hnot
    simp [selLine, hc, hm, hp, hne, hnot]

/-- Witness for the amended C5 at concrete inputs. -/
theorem unknown_selector_expr_behavior_witness :
    filter_platform_selectors "anything" "win-64" ≠ none ∧
    selLine "linux-64" "foo  # [foo64]" = some none :=
  ⟨unknown_selector_expr_behavior.1 "win-64" ["win", "win64"] "anything" (by decide),
   unknown_selector_expr_behavior.2 "linux-64" ["linux64", "unix", "linux"] "foo  # [foo64]"
     ("foo64".data) (by decide) (by decide) (by decide) (by decide) (by decide)⟩

/-! ## Theorems for claims C9, C10, C2 -/

/-- C9: Distribution-name normalization maps `"foo-1.0-0.tar.bz2"` and
`"foo-1.0-0.conda"` to the same normalized name `"foo-1.0-0"`, and for every
filename ending in neither `".conda"` nor `".tar.bz2"` it raises a hard error
(modelled as `none`). -/
theorem fn_to_dist_name_normalizes :
    fn_to_dist_name "foo-1.0-0.tar.bz2" = some "foo-1.0-0" ∧
    fn_to_dist_name "foo-1.0-0.conda" = some "foo-1.0-0" ∧
    ∀ fn : String, pyEndsWith fn ".conda" = false → pyEndsWith fn ".tar.bz2" = false →
      fn_to_dist_name fn = none := by
  refine ⟨by decide, by decide, ?_⟩
  intro fn h1 h2
  simp [fn_to_dist_name, h1, h2]

/-- Witness for C9 at the concrete input `"foo.zip"`. -/
theorem fn_to_dist_name_normalizes_witness : fn_to_dist_name "foo.zip" = none :=
  fn_to_dist_name_normalizes.2.2 "foo.zip" (by decide) (by decide)

/-- C10: `fn_to_dist_name` cuts at the *first* occurrence of the recognized
suffix token (`str.partition` semantics), so on `"a.conda-1.conda"` the result
is `"a"`, not the filename with only its final suffix removed (`"a.conda-1"`). -/
theorem fn_to_dist_name_first_occurrence :
    (∀ fn : String, pyEndsWith fn ".conda" = true →
      fn_to_dist_name fn = some (pyPartitionBefore fn ".conda")) ∧
    (∀ fn : String, pyEndsWith fn ".conda" = false → pyEndsWith fn ".tar.bz2" = true →
      fn_to_dist_name fn = some (pyPartitionBefore fn ".tar.bz2")) ∧
    fn_to_dist_name "a.conda-1.conda" = some "a" ∧
    ("a" : String) ≠ "a.conda-1" := by
  refine ⟨?_, ?_, by decide, by decide⟩
  · intro fn h1
    simp [fn_to_dist_name, h1]
  · intro fn h1 h2
    simp [fn_to_dist_name, h1, h2]

/-- Witness for C10 at concrete inputs. -/
theorem fn_to_dist_name_first_occurrence_witness :
    fn_to_dist_name "x.conda" = some "x" ∧ fn_to_dist_name "y.tar.bz2" = some "y" :=
  ⟨(fn_to_dist_name_first_occurrence.1 "x.conda" (by decide)).trans (by decide),
   (fn_to_dist_name_first_occurrence.2.1 "y.tar.bz2" (by decide) (by decide)).trans (by decide)⟩

/-- C2 counterexample: with `prune` not given and no `force`, take
`use_pip = true`, `conda_changed = false`, `pip_changed = true`.  The code
computes `prune = (use_pip and conda_changed) or pip_changed = true` and runs a
full recreate (`condaAction = some true`), although the claim predicts
`prune = conda_changed ∧ pip_changed = false` (an incremental update) for this
combination. -/
theorem envInstallPrune_claim_counterexample :
    envInstallPrune none true false true = true ∧
    (false && true) = false ∧
    condaAction false (envInstallPrune none true false true) false true = some true := by
  decide

/-- C2 amended: with `prune` not given and no `force`, a full recreate of the
conda subsystem is forced exactly when the pip subsystem is locked-stale, or
when pip is in use and the conda subsystem is stale
(`prune = pip_changed ∨ (use_pip ∧ conda_changed)`); an incremental update
happens exactly when that condition fails and the conda subsystem is stale. -/
theorem envInstallPrune_decision :
    ∀ use_pip conda_changed pip_changed : Bool,
      envInstallPrune none use_pip conda_changed pip_changed
          = (pip_changed || (use_pip && conda_changed)) ∧
      (condaAction false (envInstallPrune none use_pip conda_changed pip_changed)
          conda_changed true = some true ↔
        (pip_changed || (use_pip && conda_changed)) = true) ∧
      (condaAction false (envInstallPrune none use_pip conda_changed pip_changed)
          conda_changed true = some false ↔
        ((pip_changed || (use_pip && conda_changed)) = false ∧ conda_changed = true)) := by
  intro up cc pc
  cases up <;> cases cc <;> cases pc <;> decide

/-! ## Claim C8: marker writes in `env_install` (src/coman/env.py lines 519-580)

```python
    # Conda
    if force or prune or conda_changed:
        _env_install_conda(conda, prune)          # exit(1) on non-zero returncode
        with open(conda.env.prefix / "conda_hash.txt", "w") as f:
            f.write(conda_hash)
            installed = True
    ...
    # Pip
    pip_hash_path = conda.env.prefix / "pip_hash.txt"
    if pip_hash:
        if force or prune or pip_changed:
            _env_install_pip(conda.env.python)    # exit(1) on non-zero returncode
            with open(pip_hash_path, "w") as f:
                f.write(pip_hash)
            installed = True
    elif pip_hash_path.exists():
        os.remove(pip_hash_path)
```

The observable steps are modelled as an event trace; `exit(1)` inside
`_env_install_conda`/`_env_install_pip` truncates the trace. -/

/-- Observable side effects of `env_install`, in program order. -/
inductive Event where
  | condaInstall (exitCode : Int)
  | writeCondaMarker (hash : String)
  | pipInstall (exitCode : Int)
  | writePipMarker (hash : String)
  | removePipMarker
  | exitProcess (code : Int)
  deriving DecidableEq, Repr

/-- The pip part of `env_install` (runs only when the conda part did not
terminate the process).  `pipHash = none` models a falsy `pip_hash`. -/
def pipStepEvents (force pr pip_changed : Bool) (pipHash : Option String)
    (pipMarkerExists : Bool) (pipExit : Int) : List Event :=
  match pipHash with
  | some h =>
    if force || pr || pip_changed then
      if pipExit ≠ 0 then [Event.pipInstall pipExit, Event.exitProcess 1]
      else [Event.pipInstall pipExit, Event.writePipMarker h]
    else []
  | none => if pipMarkerExists then [Event.removePipMarker] else []

/-- The event trace of `env_install` from the point where both lock hashes are
known.  `condaExit`/`pipExit` are the exit statuses of the two install steps. -/
def env_install_events (force : Bool) (prune : Option Bool)
    (use_pip conda_changed pip_changed : Bool) (condaHash : String)
    (pipHash : Option String) (pipMarkerExists : Bool) (condaExit pipExit : Int) :
    List Event :=
  if force || envInstallPrune prune use_pip conda_changed pip_changed || conda_changed then
    if condaExit ≠ 0 then [Event.condaInstall condaExit, Event.exitProcess 1]
    else Event.condaInstall condaExit :: Event.writeCondaMarker condaHash ::
      pipStepEvents force (envInstallPrune prune use_pip conda_changed pip_changed)
        pip_changed pipHash pipMarkerExists pipExit
  else pipStepEvents force (envInstallPrune prune use_pip conda_changed pip_changed)
    pip_changed pipHash pipMarkerExists pipExit

theorem writeCondaMarker_not_mem_pipStepEvents (force pr pc : Bool) (ph : Option String)
    (pm : Bool) (pe : Int) (h : String) :
    Event.writeCondaMarker h ∉ pipStepEvents force pr pc ph pm pe := by
  unfold pipStepEvents
  rcases ph with _ | hv
  · split_ifs <;> simp
  · split_ifs <;> simp

theorem writePipMarker_mem_pipStepEvents (force pr pc : Bool) (ph : Option String)
    (pm : Bool) (pe : Int) (h : String) :
    Event.writePipMarker h ∈ pipStepEvents force pr pc ph pm pe →
    pe = 0 ∧ ph = some h ∧
      ∃ a b, pipStepEvents force pr pc ph pm pe
          = a ++ [Event.pipInstall 0, Event.writePipMarker h] ++ b := by
  rcases ph with _ | hv
  · simp only [pipStepEvents]
    split_ifs <;> simp
  · simp only [pipStepEvents]
    split_ifs with h1 h2
    · simp
    · intro hmem
      have hpe : pe = 0 := not_not.mp h2
      subst hpe
      simp at hmem
      subst hmem
      exact ⟨rfl, rfl, [], [], rfl⟩
    · simp

/-- C8: a subsystem's installed-state marker is written only right after that
subsystem's install step succeeds (exit status 0), as the immediately following
step; a non-zero exit status terminates the process before any marker write.
`ev` abbreviates the whole `env_install` trace.  Part 1: a failed conda install
leaves no conda marker write anywhere (and the trace is exactly
`[condaInstall, exit 1]` whenever the conda step ran).  Part 2: a failed pip
install leaves no pip marker write.  Parts 3 and 4: any marker write in the
trace carries the just-installed hash and sits directly after a successful
install event of its own subsystem. -/
theorem env_install_marker_discipline (force : Bool) (prune : Option Bool)
    (use_pip conda_changed pip_changed : Bool) (condaHash : String)
    (pipHash : Option String) (pipMarkerExists : Bool) (condaExit pipExit : Int) :
    (condaExit ≠ 0 → ∀ h : String,
      Event.writeCondaMarker h ∉ env_install_events force prune use_pip conda_changed
        pip_changed condaHash pipHash pipMarkerExists condaExit pipExit) ∧
    (pipExit ≠ 0 → ∀ h : String,
      Event.writePipMarker h ∉ env_install_events force prune use_pip conda_changed
        pip_changed condaHash pipHash pipMarkerExists condaExit pipExit) ∧
    (∀ h : String,
      Event.writeCondaMarker h ∈ env_install_events force prune use_pip conda_changed
        pip_changed condaHash pipHash pipMarkerExists condaExit pipExit →
      condaExit = 0 ∧ h = condaHash ∧
        ∃ a b, env_install_events force prune use_pip conda_changed pip_changed condaHash
            pipHash pipMarkerExists condaExit pipExit
          = a ++ [Event.condaInstall 0, Event.writeCondaMarker condaHash] ++ b) ∧
    (∀ h : String,
      Event.writePipMarker h ∈ env_install_events force prune use_pip conda_changed
        pip_changed condaHash pipHash pipMarkerExists condaExit pipExit →
      pipExit = 0 ∧ pipHash = some h ∧
        ∃ a b, env_install_events force prune use_pip conda_changed pip_changed condaHash
            pipHash pipMarkerExists condaExit pipExit
          = a ++ [Event.pipInstall 0, Event.writePipMarker h] ++ b) := by
  by_cases hrun :
      (force || envInstallPrune prune use_pip conda_changed pip_changed || conda_changed) = true
  · by_cases hce : condaExit = 0
    · have hE : env_install_events force prune use_pip conda_changed pip_changed condaHash
            pipHash pipMarkerExists condaExit pipExit
          = Event.condaInstall condaExit :: Event.writeCondaMarker condaHash ::
              pipStepEvents force (envInstallPrune prune use_pip conda_changed pip_changed)
                pip_changed pipHash pipMarkerExists pipExit := by
        simp [env_install_events, hrun, hce]
      rw [hE]
      refine ⟨fun hne _ => absurd hce hne, ?_, ?_, ?_⟩
      · intro hne h hmem
        simp at hmem
        exact hne (writePipMarker_mem_pipStepEvents _ _ _ _ _ _ h hmem).1
      · intro h hmem
        simp at hmem
        rcases hmem with rfl | hmem
        · subst hce
          exact ⟨rfl, rfl, [],
            pipStepEvents force (envInstallPrune prune use_pip conda_changed pip_changed)
              pip_changed pipHash pipMarkerExists pipExit, rfl⟩
        · exact absurd hmem (writeCondaMarker_not_mem_pipStepEvents _ _ _ _ _ _ h)
      · intro h hmem
        simp at hmem
        rcases writePipMarker_mem_pipStepEvents _ _ _ _ _ _ h hmem with ⟨hpe, hph, a, b, hsplit⟩
        subst hce
        exact ⟨hpe, hph,
          Event.condaInstall 0 :: Event.writeCondaMarker condaHash :: a, b, by simp [hsplit]⟩
    · have hE : env_install_events force prune use_pip conda_changed pip_changed condaHash
            pipHash pipMarkerExists condaExit pipExit
          = [Event.condaInstall condaExit, Event.exitProcess 1] := by
        simp [env_install_events, hrun, hce]
      rw [hE]
      refine ⟨fun _ h => by simp, fun _ h => by simp, fun h hmem => by simp at hmem,
              fun h hmem => by simp at hmem⟩
  · have hE : env_install_events force prune use_pip conda_changed pip_changed condaHash
          pipHash pipMarkerExists condaExit pipExit
        = pipStepEvents force (envInstallPrune prune use_pip conda_changed pip_changed)
            pip_changed pipHash pipMarkerExists pipExit := by
      unfold env_install_events
      rw [if_neg hrun]
    rw [hE]
    refine ⟨fun _ h => writeCondaMarker_not_mem_pipStepEvents _ _ _ _ _ _ h, ?_, ?_, ?_⟩
    · intro hne h hmem
      exact hne (writePipMarker_mem_pipStepEvents _ _ _ _ _ _ h hmem).1
    · intro h hmem
      exact absurd hmem (writeCondaMarker_not_mem_pipStepEvents _ _ _ _ _ _ h)
    · intro h hmem
      exact writePipMarker_mem_pipStepEvents _ _ _ _ _ _ h hmem

/-- Witness for C8: with conda stale and a failing conda install (exit 1) no
conda marker is written; with both installs succeeding, the conda marker write
sits directly after the successful install event. -/
theorem env_install_marker_discipline_witness :
    (Event.writeCondaMarker "h1"
        ∉ env_install_events false none true true true "h1" (some "h2") false 1 0) ∧
    (1 : Int) ≠ 0 ∧
    Event.writeCondaMarker "h1"
        ∈ env_install_events false none true true true "h1" (some "h2") false 0 0 ∧
    (0 : Int) = 0 ∧
    (∃ a b, env_install_events false none true true true "h1" (some "h2") false 0 0
        = a ++ [Event.condaInstall 0, Event.writeCondaMarker "h1"] ++ b) :=
  ⟨(env_install_marker_discipline false none true true true "h1" (some "h2") false 1 0).1
      (by decide) "h1",
   by decide, by decide,
   ((env_install_marker_discipline false none true true true "h1" (some "h2") false 0 0).2.2.1
      "h1" (by decide)).1,
   ((env_install_marker_discipline false none true true true "h1" (some "h2") false 0 0).2.2.1
      "h1" (by decide)).2.2⟩

/-! ## The failure diagnostics parser (src/coman/lock.py lines 96-121)

```python
def parse_unsatisfiable_error(msg: str):
    spec_re = re.compile(
        r"(- )?(?:([a-zA-Z0-9_-]+)(?:\[version='([^']+)'\]|(==?[^ ]+)) -> )?"
        r"(\w+)(?:\[version='([^']+)'\]|(==?[^ ]+))?")
    conflicts = {}
    incompatible = set()
    for line in msg.splitlines():
        m = spec_re.match(line.strip().replace("The following", " The following"))
        if m:
            compat, spec_name, spec_ver, spec_ver_, dep_name, dep_ver, dep_ver_ = m.groups()
            spec_ver = spec_ver or spec_ver_
            dep_ver = dep_ver or dep_ver_
            if spec_ver is None and dep_ver is None:
                continue
            if dep_name not in conflicts:
                conflicts[dep_name] = {"spec": None, "children": [], "compatible": True}
            if spec_name is None:
                conflicts[dep_name]["spec"] = dep_ver
            else:
                if compat is not None:
                    incompatible.add(spec_name)
                    conflicts[dep_name]["compatible"] = False
                conflicts[dep_name]["children"].append((spec_name, spec_ver, dep_name, dep_ver))
    return conflicts
```

The regex is embedded as an explicit matcher.  All its greedy pieces are
deterministic after the following analysis: the character classes of
`[a-zA-Z0-9_-]+`, `\w+`, `[^']+` and `[^ ]+` never contain the character the
pattern requires next (`[`, `=`, the quote, or the space of `' -> '`), so only
the maximal run can continue the match; the only genuine backtracking is the
optional `(- )?` and requiring-group prefixes (present branch first) and `==?`
(two equals signs first). -/

/-- `[a-zA-Z0-9_-]` (the requiring-package name class). -/
def isSpecNameChar (c : Char) : Bool :=
  c.isAlpha || c.isDigit || c = '_' || c = '-'

/-- `\w` restricted to ASCII (the required-package name class). -/
def isWordChar (c : Char) : Bool :=
  c.isAlpha || c.isDigit || c = '_'

/-- The single-quote character. -/
def sq : Char := '\x27'

/-- `\[version='([^']+)'\]`: returns the captured constraint and the rest. -/
def verBracket (l : List Char) : Option (List Char × List Char) :=
  if headMatch "[version=\x27".data l then
    let t := l.drop ("[version=\x27".data.length)
    let run := t.takeWhile (fun c => c ≠ sq)
    if run.isEmpty then none
    else
      let t2 := t.drop run.length
      if headMatch [sq, ']'] t2 then some (run, t2.drop 2) else none
  else none

/-- `(==?[^ ]+)`: the capture includes the equals sign(s).  `==?` is greedy,
with backtracking to a single `=` when `[^ ]+` would otherwise be empty. -/
def verEq (l : List Char) : Option (List Char × List Char) :=
  match l with
  | '=' :: '=' :: rest =>
    let run := rest.takeWhile (fun c => c ≠ ' ')
    if run.isEmpty then
      let rest2 := '=' :: rest
      let run2 := rest2.takeWhile (fun c => c ≠ ' ')
      if run2.isEmpty then none else some ('=' :: run2, rest2.drop run2.length)
    else some ('=' :: '=' :: run, rest.drop run.length)
  | '=' :: rest =>
    let run := rest.takeWhile (fun c => c ≠ ' ')
    if run.isEmpty then none else some ('=' :: run, rest.drop run.length)
  | _ => none

/-- The version alternation `(?:\[version='([^']+)'\]|(==?[^ ]+))`. -/
def verAlt (l : List Char) : Option (List Char × List Char) :=
  (verBracket l).orElse (fun _ => verEq l)

/-- The groups of one `spec_re` match: `dash` is group 1 (`compat`),
`specName`/`specVer` the requiring package and its combined constraint
(groups 2 and 3|4), `depName`/`depVer` the required package (groups 5 and 6|7). -/
structure SpecMatch where
  dash : Bool
  specName : Option String
  specVer : Option String
  depName : String
  depVer : Option String
  deriving DecidableEq, Repr

/-- The mandatory trailing part `(\w+)(?:\[version='([^']+)'\]|(==?[^ ]+))?`. -/
def depPart (dash : Bool) (specName specVer : Option String) (l : List Char) :
    Option SpecMatch :=
  if (l.takeWhile isWordChar).isEmpty then none
  else
    match verAlt (l.drop (l.takeWhile isWordChar).length) with
    | some (v, _) =>
      some ⟨dash, specName, specVer, (l.takeWhile isWordChar).asString, some v.asString⟩
    | none => some ⟨dash, specName, specVer, (l.takeWhile isWordChar).asString, none⟩

/-- After the requiring name and a successful version alternative, require the
literal `' -> '` and continue with the required-package part. -/
def arrowThenDep (dash : Bool) (sn sv : List Char) (rest : List Char) : Option SpecMatch :=
  if headMatch " -> ".data rest then
    depPart dash (some sn.asString) (some sv.asString) (rest.drop (" -> ".data.length))
  else none

/-- The requiring-group present branch
`([a-zA-Z0-9_-]+)(?:\[version='([^']+)'\]|(==?[^ ]+)) -> ` followed by the
required-package part.  The alternation backtracks: if its first branch
matches but `' -> '` does not follow, the second branch is tried at the same
position (it then necessarily fails on the `[`, kept for fidelity). -/
def reqThenDep (dash : Bool) (l : List Char) : Option SpecMatch :=
  if (l.takeWhile isSpecNameChar).isEmpty then none
  else
    match verBracket (l.drop (l.takeWhile isSpecNameChar).length) with
    | some (v, rest2) =>
      (arrowThenDep dash (l.takeWhile isSpecNameChar) v rest2).orElse (fun _ =>
        match verEq (l.drop (l.takeWhile isSpecNameChar).length) with
        | some (v2, rest3) => arrowThenDep dash (l.takeWhile isSpecNameChar) v2 rest3
        | none => none)
    | none =>
      match verEq (l.drop (l.takeWhile isSpecNameChar).length) with
      | some (v2, rest3) => arrowThenDep dash (l.takeWhile isSpecNameChar) v2 rest3
      | none => none

/-- The requiring group is optional: present branch first, then absent. -/
def reqDepMatch (dash : Bool) (l : List Char) : Option SpecMatch :=
  (reqThenDep dash l).orElse (fun _ => depPart dash none none l)

/-- `spec_re.match(line)`: the optional `(- )?` prefix, present branch first. -/
def specReMatch (l : List Char) : Option SpecMatch :=
  if headMatch "- ".data l then
    (reqDepMatch true (l.drop 2)).orElse (fun _ => reqDepMatch false l)
  else reqDepMatch false l

/-- One entry of the `conflicts` dict. -/
structure ConflictInfo where
  spec : Option String
  children : List (String × Option String × String × Option String)
  compatible : Bool
  deriving DecidableEq, Repr

/-- Python dict lookup on the insertion-ordered association list. -/
def lookupAssoc (k : String) : List (String × ConflictInfo) → Option ConflictInfo
  | [] => none
  | (k2, v) :: rest => if k2 = k then some v else lookupAssoc k rest

/-- Python dict update: mutate the entry in place (keeping its position) or
append a fresh entry built from the default. -/
def updateAssoc (k : String) (f : ConflictInfo → ConflictInfo) (dflt : ConflictInfo) :
    List (String × ConflictInfo) → List (String × ConflictInfo)
  | [] => [(k, f dflt)]
  | (k2, v) :: rest =>
    if k2 = k then (k2, f v) :: rest else (k2, v) :: updateAssoc k f dflt rest

/-- `line.strip().replace("The following", " The following")`. -/
def procLine (line : String) : List Char :=
  pyReplaceL "The following".data " The following".data (pyStripL line.data)

/-- One loop iteration of `parse_unsatisfiable_error` over the `conflicts`
state. -/
def unsatStep (st : List (String × ConflictInfo)) (line : String) :
    List (String × ConflictInfo) :=
  match specReMatch (procLine line) with
  | none => st
  | some m =>
    if m.specVer = none ∧ m.depVer = none then st
    else
      match m.specName with
      | none => updateAssoc m.depName (fun e => { e with spec := m.depVer }) ⟨none, [], true⟩ st
      | some sn =>
        updateAssoc m.depName (fun e =>
          { e with
            compatible := if m.dash then false else e.compatible,
            children := e.children ++ [(sn, m.specVer, m.depName, m.depVer)] })
          ⟨none, [], true⟩ st

/-- `parse_unsatisfiable_error(msg)`: the final `conflicts` dict, as an
insertion-ordered association list. -/
def parse_unsatisfiable_error (msg : String) : List (String × ConflictInfo) :=
  (pySplitlines msg).foldl unsatStep []

/-- Does `name` appear as a *requiring* package (with its mandatory explicit
version/constraint qualifier) on some line of the message? -/
def appearsAsRequiring (msg name : String) : Bool :=
  (pySplitlines msg).any (fun line =>
    match specReMatch (procLine line) with
    | some m => m.specName = some name
    | none => false)

/-- Does a line contribute to the conflict graph (it matches the grammar with a
version on at least one side)? -/
def lineContributes (line : String) : Bool :=
  match specReMatch (procLine line) with
  | some m => !(m.specVer.isNone && m.depVer.isNone)
  | none => false

/-! ### Structural lemmas about the matcher and the dict operations -/

theorem depPart_fields (dash : Bool) (sn sv : Option String) (l : List Char) (m : SpecMatch)
    (h : depPart dash sn sv l = some m) : m.dash = dash ∧ m.specName = sn ∧ m.specVer = sv := by
  unfold depPart at h
  by_cases h1 : (l.takeWhile isWordChar).isEmpty
  · rw [if_pos h1] at h; exact absurd h (by simp)
  · rw [if_neg h1] at h
    cases hv : verAlt (l.drop (l.takeWhile isWordChar).length) with
    | some p => rw [hv] at h; obtain ⟨v, r⟩ := p; cases h; exact ⟨rfl, rfl, rfl⟩
    | none => rw [hv] at h; cases h; exact ⟨rfl, rfl, rfl⟩

theorem arrowThenDep_fields (dash : Bool) (sn sv rest : List Char) (m : SpecMatch)
    (h : arrowThenDep dash sn sv rest = some m) :
    m.dash = dash ∧ m.specName = some sn.asString ∧ m.specVer = some sv.asString := by
  unfold arrowThenDep at h
  by_cases h1 : headMatch " -> ".data rest = true
  · rw [if_pos h1] at h; exact depPart_fields _ _ _ _ _ h
  · rw [if_neg h1] at h; exact absurd h (by simp)

theorem reqThenDep_fields (dash : Bool) (l : List Char) (m : SpecMatch)
    (h : reqThenDep dash l = some m) :
    m.dash = dash ∧ m.specName ≠ none ∧ m.specVer ≠ none := by
  unfold reqThenDep at h
  split at h
  · exact absurd h (by simp)
  · split at h
    · rename_i v rest2 _
      cases ha : arrowThenDep dash (l.takeWhile isSpecNameChar) v rest2 with
      | some m2 =>
        rw [ha] at h
        simp only [Option.orElse] at h
        cases h
        rcases arrowThenDep_fields _ _ _ _ _ ha with ⟨hd, hs, hv⟩
        exact ⟨hd, by simp [hs], by simp [hv]⟩
      | none =>
        rw [ha] at h
        simp only [Option.orElse] at h
        split at h
        · rcases arrowThenDep_fields _ _ _ _ _ h with ⟨hd, hs, hv⟩
          exact ⟨hd, by simp [hs], by simp [hv]⟩
        · exact absurd h (by simp)
    · split at h
      · rcases arrowThenDep_fields _ _ _ _ _ h with ⟨hd, hs, hv⟩
        exact ⟨hd, by simp [hs], by simp [hv]⟩
      · exact absurd h (by simp)

theorem reqDepMatch_specVer (dash : Bool) (l : List Char) (m : SpecMatch)
    (h : reqDepMatch dash l = some m) (hs : m.specName ≠ none) : m.specVer ≠ none := by
  unfold reqDepMatch at h
  cases hr : reqThenDep dash l with
  | some m2 =>
    rw [hr] at h
    simp only [Option.orElse] at h
    cases h
    exact (reqThenDep_fields _ _ _ hr).2.2
  | none =>
    rw [hr] at h
    simp only [Option.orElse] at h
    rcases depPart_fields _ _ _ _ _ h with ⟨_, hsn, _⟩
    exact absurd hsn hs

/-- A match with a requiring package always carries its version constraint
(the regex makes the qualifier mandatory inside the requiring group). -/
theorem specReMatch_specVer (l : List Char) (m : SpecMatch)
    (h : specReMatch l = some m) (hs : m.specName ≠ none) : m.specVer ≠ none := by
  unfold specReMatch at h
  by_cases h1 : headMatch "- ".data l = true
  · rw [if_pos h1] at h
    cases hr : reqDepMatch true (l.drop 2) with
    | some m2 =>
      rw [hr] at h
      simp only [Option.orElse] at h
      cases h
      exact reqDepMatch_specVer _ _ _ hr hs
    | none =>
      rw [hr] at h
      simp only [Option.orElse] at h
      exact reqDepMatch_specVer _ _ _ h hs
  · rw [if_neg h1] at h
    exact reqDepMatch_specVer _ _ _ h hs

theorem lookupAssoc_updateAssoc_self (k : String) (f : ConflictInfo → ConflictInfo)
    (d : ConflictInfo) :
    ∀ st, lookupAssoc k (updateAssoc k f d st) = some (f ((lookupAssoc k st).getD d)) := by
  intro st
  induction st with
  | nil => simp [lookupAssoc, updateAssoc]
  | cons p rest ih =>
    obtain ⟨k2, v⟩ := p
    by_cases hk : k2 = k
    · subst hk; simp [lookupAssoc, updateAssoc]
    · simp [lookupAssoc, updateAssoc, hk, ih]

theorem lookupAssoc_updateAssoc_ne (k k2 : String) (hne : k2 ≠ k)
    (f : ConflictInfo → ConflictInfo) (d : ConflictInfo) :
    ∀ st, lookupAssoc k2 (updateAssoc k f d st) = lookupAssoc k2 st := by
  intro st
  induction st with
  | nil => simp [lookupAssoc, updateAssoc, Ne.symm hne]
  | cons p rest ih =>
    obtain ⟨k3, v⟩ := p
    by_cases hk : k3 = k
    · subst hk; simp [lookupAssoc, updateAssoc, Ne.symm hne]
    · simp [lookupAssoc, updateAssoc, hk, ih]

/-- How one parser line affects the `compatible=false` status of `name`'s
entry: it becomes (or stays) incompatible exactly when it already was, or the
line carries the dash marker, a requiring package, and names `name` as the
required package. -/
theorem unsatStep_compat (st : List (String × ConflictInfo)) (line name : String) :
    (∃ e, lookupAssoc name (unsatStep st line) = some e ∧ e.compatible = false) ↔
      ((∃ e, lookupAssoc name st = some e ∧ e.compatible = false) ∨
        (∃ m, specReMatch (procLine line) = some m ∧ m.dash = true ∧
          m.specName ≠ none ∧ m.depName = name)) := by
  cases hm : specReMatch (procLine line) with
  | none => simp [unsatStep, hm]
  | some m =>
    by_cases hskip : m.specVer = none ∧ m.depVer = none
    · have hstep : unsatStep st line = st := by
        simp [unsatStep, hm, hskip.1, hskip.2]
      rw [hstep]
      constructor
      · exact fun h => Or.inl h
      · rintro (h | ⟨m2, hm2, hdash, hsn, hdep⟩)
        · exact h
        · cases hm2
          exact absurd hskip.1 (specReMatch_specVer _ _ hm hsn)
    · cases hsn : m.specName with
      | none =>
        have hstep : unsatStep st line
            = updateAssoc m.depName (fun e => { e with spec := m.depVer })
                ⟨none, [], true⟩ st := by
          simp [unsatStep, hm, hskip, hsn]
        rw [hstep]
        by_cases hdep : m.depName = name
        · subst hdep
          rw [lookupAssoc_updateAssoc_self]
          cases hold : lookupAssoc m.depName st with
          | none =>
            simp only [hold, Option.getD_none, Option.some.injEq]
            constructor
            · rintro ⟨e, rfl, hc⟩; simp at hc
            · rintro (⟨e, he, _⟩ | ⟨m2, hm2, _, hsn2, _⟩)
              · simp at he
              · cases hm2; exact absurd hsn hsn2
          | some e0 =>
            simp only [hold, Option.getD_some, Option.some.injEq]
            constructor
            · rintro ⟨e, rfl, hc⟩
              exact Or.inl ⟨e0, rfl, hc⟩
            · rintro (⟨e, he, hc⟩ | ⟨m2, hm2, _, hsn2, _⟩)
              · cases he; exact ⟨_, rfl, hc⟩
              · cases hm2; exact absurd hsn hsn2
        · rw [lookupAssoc_updateAssoc_ne m.depName name (Ne.symm hdep)]
          constructor
          · exact fun h => Or.inl h
          · rintro (h | ⟨m2, hm2, _, _, hdep2⟩)
            · exact h
            · cases hm2; exact absurd hdep2 hdep
      | some sn =>
        have hstep : unsatStep st line
            = updateAssoc m.depName (fun e =>
                { e with
                  compatible := if m.dash then false else e.compatible,
                  children := e.children ++ [(sn, m.specVer, m.depName, m.depVer)] })
                ⟨none, [], true⟩ st := by
          simp [unsatStep, hm, hskip, hsn]
        rw [hstep]
        by_cases hdep : m.depName = name
        · subst hdep
          rw [lookupAssoc_updateAssoc_self]
          by_cases hdash : m.dash = true
          · constructor
            · intro _
              exact Or.inr ⟨m, rfl, hdash, by simp [hsn], rfl⟩
            · intro _
              exact ⟨_, rfl, by simp [hdash]⟩
          · have hdf : m.dash = false := by simpa using hdash
            cases hold : lookupAssoc m.depName st with
            | none =>
              simp only [hold, Option.getD_none, Option.some.injEq]
              constructor
              · rintro ⟨e, rfl, hc⟩; simp [hdf] at hc
              · rintro (⟨e, he, _⟩ | ⟨m2, hm2, hdash2, _, _⟩)
                · simp at he
                · cases hm2; exact absurd hdash2 hdash
            | some e0 =>
              simp only [hold, Option.getD_some, Option.some.injEq]
              constructor
              · rintro ⟨e, rfl, hc⟩
                exact Or.inl ⟨e0, rfl, by simpa [hdf] using hc⟩
              · rintro (⟨e, he, hc⟩ | ⟨m2, hm2, hdash2, _, _⟩)
                · cases he; exact ⟨_, rfl, by simpa [hdf] using hc⟩
                · cases hm2; exact absurd hdash2 hdash
        · rw [lookupAssoc_updateAssoc_ne m.depName name (Ne.symm hdep)]
          constructor
          · exact fun h => Or.inl h
          · rintro (h | ⟨m2, hm2, _, _, hdep2⟩)
            · exact h
            · cases hm2; exact absurd hdep2 hdep

theorem unsat_foldl_compat :
    ∀ (lines : List String) (st : List (String × ConflictInfo)) (name : String)
      (e : ConflictInfo),
      lookupAssoc name (lines.foldl unsatStep st) = some e →
      (e.compatible = false ↔
        ((∃ e0, lookupAssoc name st = some e0 ∧ e0.compatible = false) ∨
          ∃ line ∈ lines, ∃ m, specReMatch (procLine line) = some m ∧ m.dash = true ∧
            m.specName ≠ none ∧ m.depName = name)) := by
  intro lines
  induction lines with
  | nil =>
    intro st name e h
    simp only [List.foldl_nil] at h
    simp only [List.not_mem_nil, false_and, exists_false, exists_const, or_false]
    constructor
    · exact fun hc => ⟨e, h, hc⟩
    · rintro ⟨e0, he0, hc⟩
      rw [h] at he0; cases he0; exact hc
  | cons l ls ih =>
    intro st name e h
    rw [List.foldl_cons] at h
    rw [ih (unsatStep st l) name e h, unsatStep_compat st l name]
    constructor
    · rintro ((h1 | h2) | ⟨line, hline, rest⟩)
      · exact Or.inl h1
      · exact Or.inr ⟨l, List.mem_cons_self _ _, h2⟩
      · exact Or.inr ⟨line, List.mem_cons_of_mem _ hline, rest⟩
    · rintro (h1 | ⟨line, hline, rest⟩)
      · exact Or.inl (Or.inl h1)
      · rcases List.mem_cons.mp hline with rfl | hline2
        · exact Or.inl (Or.inr rest)
        · exact Or.inr ⟨line, hline2, rest⟩

/-! ### Theorems for claims C6 and C7 -/

/-- C6 counterexample: in the message `"- a==1 -> b==2"` the required package
`b` gets `compatible=false`, although `b` never appears as a *requiring*
package anywhere in the message (only `a` does).  The flag is driven by the
dash marker on the line where the package is *required*, not by the package
appearing as a requirer elsewhere. -/
theorem parse_unsat_compat_claim_counterexample :
    lookupAssoc "b" (parse_unsatisfiable_error "- a==1 -> b==2")
        = some ⟨none, [("a", some "==1", "b", some "==2")], false⟩ ∧
    appearsAsRequiring "- a==1 -> b==2" "b" = false ∧
    appearsAsRequiring "- a==1 -> b==2" "a" = true := by
  exact ⟨by decide, by decide, by decide⟩

/-- C6 amended: a required package's entry has `compatible=false` exactly when
some line of the message carries the leading dash marker *and* a requiring
package (with its mandatory explicit version/constraint qualifier) *and* names
this package as the required one. -/
theorem parse_unsat_compatible_iff (msg name : String) (e : ConflictInfo)
    (h : lookupAssoc name (parse_unsatisfiable_error msg) = some e) :
    e.compatible = false ↔
      ∃ line ∈ pySplitlines msg, ∃ m, specReMatch (procLine line) = some m ∧
        m.dash = true ∧ m.specName ≠ none ∧ m.depName = name := by
  rw [unsat_foldl_compat (pySplitlines msg) [] name e h]
  simp [lookupAssoc]

/-- Witness for the amended C6 at the concrete message `"- a==1 -> b==2"`. -/
theorem parse_unsat_compatible_iff_witness :
    lookupAssoc "b" (parse_unsatisfiable_error "- a==1 -> b==2")
        = some ⟨none, [("a", some "==1", "b", some "==2")], false⟩ ∧
    ((⟨none, [("a", some "==1", "b", some "==2")], false⟩ : ConflictInfo).compatible = false ↔
      ∃ line ∈ pySplitlines "- a==1 -> b==2", ∃ m, specReMatch (procLine line) = some m ∧
        m.dash = true ∧ m.specName ≠ none ∧ m.depName = "b") :=
  ⟨by decide, parse_unsat_compatible_iff "- a==1 -> b==2" "b" _ (by decide)⟩

theorem unsatStep_id (line : String) (hnc : lineContributes line = false)
    (st : List (String × ConflictInfo)) : unsatStep st line = st := by
  unfold lineContributes at hnc
  cases hm : specReMatch (procLine line) with
  | none => simp [unsatStep, hm]
  | some m =>
    rw [hm] at hnc
    simp only [Bool.not_eq_false', Bool.and_eq_true, Option.isNone_iff_eq_none] at hnc
    simp [unsatStep, hm, hnc.1, hnc.2]

theorem foldl_all_noncontrib :
    ∀ (ls : List String) (st : List (String × ConflictInfo)),
      (∀ line ∈ ls, lineContributes line = false) → ls.foldl unsatStep st = st := by
  intro ls
  induction ls with
  | nil => intro st _; rfl
  | cons l ls ih =>
    intro st hall
    rw [List.foldl_cons, unsatStep_id l (hall l (List.mem_cons_self _ _)) st]
    exact ih st (fun line hl => hall line (List.mem_cons_of_mem _ hl))

theorem foldl_filter_contrib :
    ∀ (ls : List String) (st : List (String × ConflictInfo)),
      ls.foldl unsatStep st = (ls.filter lineContributes).foldl unsatStep st := by
  intro ls
  induction ls with
  | nil => intro st; rfl
  | cons l ls ih =>
    intro st
    by_cases hc : lineContributes l
    · rw [List.filter_cons_of_pos hc, List.foldl_cons, List.foldl_cons, ih]
    · have hb : lineContributes l = false := by simpa using hc
      rw [List.filter_cons_of_neg (by simp [hb]), List.foldl_cons, unsatStep_id l hb, ih]

/-- C7: the parser is total (the embedding returns a plain value for every
string); the concrete unrelated message `"connection timed out"` yields the
empty conflict graph; every message in which no line matches the grammar with a
version on either side yields the empty graph; and non-matching lines never
affect the entries built from matching lines (the result equals the fold over
the contributing lines alone). -/
theorem parse_unsat_graceful :
    parse_unsatisfiable_error "connection timed out" = [] ∧
    (∀ msg : String, (∀ line ∈ pySplitlines msg, lineContributes line = false) →
      parse_unsatisfiable_error msg = []) ∧
    (∀ msg : String, parse_unsatisfiable_error msg
        = ((pySplitlines msg).filter lineContributes).foldl unsatStep []) := by
  refine ⟨by decide, ?_, ?_⟩
  · intro msg hall
    exact foldl_all_noncontrib (pySplitlines msg) [] hall
  · intro msg
    exact foldl_filter_contrib (pySplitlines msg) []

/-- Witness for C7 at a concrete two-line unrelated message. -/
theorem parse_unsat_graceful_witness :
    parse_unsatisfiable_error "error: connection timed out\nplease retry" = [] :=
  parse_unsat_graceful.2.1 "error: connection timed out\nplease retry" (by decide)

/-! ## SHA-256

Modelled from the spec: `LockSpecification.env_hash` uses
`hashlib.sha256(env_spec.encode("utf-8")).hexdigest()` — `hashlib` is outside
this repository, so the hash is embedded at its interface as a full executable
implementation of FIPS 180-4 SHA-256 over byte lists, with 32-bit words as
`Nat` reduced `% 2^32`. -/

/-- Truncate to a 32-bit word. -/
def w32 (x : Nat) : Nat := x % 4294967296

/-- 32-bit right rotation (the argument is assumed `< 2^32`). -/
def rotr32 (n x : Nat) : Nat := w32 ((x >>> n) ||| (x <<< (32 - n)))

/-- Bitwise complement on 32 bits. -/
def not32 (x : Nat) : Nat := x ^^^ 4294967295

def shaCh (x y z : Nat) : Nat := (x &&& y) ^^^ (not32 x &&& z)

def shaMaj (x y z : Nat) : Nat := (x &&& y) ^^^ (x &&& z) ^^^ (y &&& z)

def bigSigma0 (x : Nat) : Nat := rotr32 2 x ^^^ rotr32 13 x ^^^ rotr32 22 x

def bigSigma1 (x : Nat) : Nat := rotr32 6 x ^^^ rotr32 11 x ^^^ rotr32 25 x

def smallSigma0 (x : Nat) : Nat := rotr32 7 x ^^^ rotr32 18 x ^^^ (x >>> 3)

def smallSigma1 (x : Nat) : Nat := rotr32 17 x ^^^ rotr32 19 x ^^^ (x >>> 10)

/-- The 64 SHA-256 round constants. -/
def shaK : List Nat :=
  [1116352408, 1899447441, 3049323471, 3921009573, 961987163, 1508970993,
   2453635748, 2870763221, 3624381080, 310598401, 607225278, 1426881987,
   1925078388, 2162078206, 2614888103, 3248222580, 3835390401, 4022224774,
   264347078, 604807628, 770255983, 1249150122, 1555081692, 1996064986,
   2554220882, 2821834349, 2952996808, 3210313671, 3336571891, 3584528711,
   113926993, 338241895, 666307205, 773529912, 1294757372, 1396182291,
   1695183700, 1986661051, 2177026350, 2456956037, 2730485921, 2820302411,
   3259730800, 3345764771, 3516065817, 3600352804, 4094571909, 275423344,
   430227734, 506948616, 659060556, 883997877, 958139571, 1322822218,
   1537002063, 1747873779, 1955562222, 2024104815, 2227730452, 2361852424,
   2428436474, 2756734187, 3204031479, 3329325298]

/-- The SHA-256 initial hash value. -/
def shaH0 : List Nat :=
  [1779033703, 3144134277, 1013904242, 2773480762,
   1359893119, 2600822924, 528734635, 1541459225]

/-- The 64-bit big-endian byte encoding of the message bit length. -/
def be64 (n : Nat) : List Nat :=
  (List.range 8).map (fun i => (n >>> (8 * (7 - i))) &&& 255)

/-- SHA-256 message padding: `0x80`, zeros to 56 mod 64, 8-byte bit length. -/
def shaPad (msg : List Nat) : List Nat :=
  msg ++ [128] ++ List.replicate ((55 + 64 - msg.length % 64) % 64) 0 ++ be64 (8 * msg.length)

/-- Split into 64-byte blocks (fuel-based, so it reduces in the kernel). -/
def chunksGo : Nat → List Nat → List (List Nat)
  | 0, _ => []
  | _, [] => []
  | Nat.succ fuel, l => l.take 64 :: chunksGo fuel (l.drop 64)

def chunks64 (l : List Nat) : List (List Nat) := chunksGo l.length l

/-- The `i`-th big-endian 32-bit word of a 64-byte block. -/
def beWord (b : List Nat) (i : Nat) : Nat :=
  (b.getD (4 * i) 0) <<< 24 ||| (b.getD (4 * i + 1) 0) <<< 16 |||
    (b.getD (4 * i + 2) 0) <<< 8 ||| b.getD (4 * i + 3) 0

/-- Append the next word of the message schedule. -/
def schedStep (w : List Nat) : List Nat :=
  w ++ [w32 (smallSigma1 (w.getD (w.length - 2) 0) + w.getD (w.length - 7) 0 +
    smallSigma0 (w.getD (w.length - 15) 0) + w.getD (w.length - 16) 0)]

def scheduleGo : Nat → List Nat → List Nat
  | 0, w => w
  | Nat.succ fuel, w => scheduleGo fuel (schedStep w)

/-- Extend the 16 block words to the 64-word message schedule. -/
def schedule (w16 : List Nat) : List Nat := scheduleGo 48 w16

/-- One SHA-256 round on the 8-word working state. -/
def compressStep (st : List Nat) (kw : Nat × Nat) : List Nat :=
  match st with
  | [a, b, c, d, e, f, g, h] =>
    [w32 (w32 (h + bigSigma1 e + shaCh e f g + kw.1 + kw.2) + w32 (bigSigma0 a + shaMaj a b c)),
     a, b, c,
     w32 (d + w32 (h + bigSigma1 e + shaCh e f g + kw.1 + kw.2)),
     e, f, g]
  | _ => st

/-- Compress one 64-byte block into the running hash. -/
def compressBlock (h : List Nat) (block : List Nat) : List Nat :=
  ((h.zip ((shaK.zip (schedule ((List.range 16).map (beWord block)))).foldl compressStep h)).map
    (fun p => w32 (p.1 + p.2)))

/-- SHA-256 of a byte list, as the 8 final 32-bit words. -/
def sha256Words (msg : List Nat) : List Nat :=
  (chunks64 (shaPad msg)).foldl compressBlock shaH0

def hexDigitChar (n : Nat) : Char := "0123456789abcdef".data.getD n '0'

/-- Lowercase 8-digit hex of a 32-bit word. -/
def word32Hex (n : Nat) : List Char :=
  (List.range 8).map (fun i => hexDigitChar ((n >>> (4 * (7 - i))) &&& 15))

/-- UTF-8 encoding of one character. -/
def utf8Bytes (c : Char) : List Nat :=
  if c.toNat < 128 then [c.toNat]
  else if c.toNat < 2048 then
    [192 ||| (c.toNat >>> 6), 128 ||| (c.toNat &&& 63)]
  else if c.toNat < 65536 then
    [224 ||| (c.toNat >>> 12), 128 ||| ((c.toNat >>> 6) &&& 63), 128 ||| (c.toNat &&& 63)]
  else
    [240 ||| (c.toNat >>> 18), 128 ||| ((c.toNat >>> 12) &&& 63),
     128 ||| ((c.toNat >>> 6) &&& 63), 128 ||| (c.toNat &&& 63)]

/-- `hashlib.sha256(s.encode("utf-8")).hexdigest()`. -/
def sha256Hex (s : String) : String :=
  (((sha256Words ((s.data.map utf8Bytes).flatten)).map word32Hex).flatten).asString

/-! ## Canonical JSON serialization (`json.dumps(..., sort_keys=True)`)

`LockSpecification.env_hash` serializes
`{"channels": self.channels, "platform": self.platform, "specs": sorted(self.specs)}`
with `json.dumps(..., sort_keys=True)` — default separators `", "`/`": "`,
default `ensure_ascii=True` (so every character outside printable ASCII is
`\uXXXX`-escaped, with surrogate pairs beyond the BMP).  The keys are already in
sorted order. -/

/-- Lowercase 4-digit hex. -/
def hex4 (n : Nat) : List Char :=
  (List.range 4).map (fun i => hexDigitChar ((n >>> (4 * (3 - i))) &&& 15))

/-- `json.dumps` escaping of one character (`ensure_ascii=True`). -/
def jsonEscChar (c : Char) : List Char :=
  if c = '"' then ['\\', '"']
  else if c = '\\' then ['\\', '\\']
  else if c.toNat = 8 then ['\\', 'b']
  else if c.toNat = 12 then ['\\', 'f']
  else if c = '\n' then ['\\', 'n']
  else if c.toNat = 13 then ['\\', 'r']
  else if c = '\t' then ['\\', 't']
  else if c.toNat < 32 ∨ c.toNat > 126 then
    if c.toNat < 65536 then '\\' :: 'u' :: hex4 c.toNat
    else
      ('\\' :: 'u' :: hex4 (55296 + (c.toNat - 65536) / 1024)) ++
        ('\\' :: 'u' :: hex4 (56320 + (c.toNat - 65536) % 1024))
  else [c]

/-- The escaped body of a JSON string literal. -/
def escBody (l : List Char) : List Char :=
  (l.map jsonEscChar).flatten

/-- A JSON string literal. -/
def jsonStr (s : String) : List Char :=
  '"' :: escBody s.data ++ ['"']

/-- The text of a JSON array after the opening `[`: elements separated by the
default `", "`, closed by `]`. -/
def jsonListInner : List String → List Char
  | [] => [']']
  | [x] => jsonStr x ++ [']']
  | x :: y :: xs => jsonStr x ++ ", ".data ++ jsonListInner (y :: xs)

/-- A JSON array of strings with the default `", "` separator. -/
def jsonStrList (l : List String) : List Char :=
  '[' :: jsonListInner l

/-- Python `sorted` on strings (lexicographic by code point; total order with
antisymmetry, so the result is determined by the multiset of elements). -/
def pySorted (l : List String) : List String :=
  List.insertionSort (fun a b : String => a ≤ b) l

/-! ## `LockSpecification` (src/coman/lock.py lines 17-32) -/

structure LockSpecification where
  specs : List String
  channels : List String
  platform : String
  deriving DecidableEq, Repr

/-- The canonical `json.dumps` serialization hashed by `env_hash`. -/
def envSpecJson (spec : LockSpecification) : String :=
  ("\x7b\"channels\": ".data ++ jsonStrList spec.channels ++
   ", \"platform\": ".data ++ jsonStr spec.platform ++
   ", \"specs\": ".data ++ jsonStrList (pySorted spec.specs) ++ "\x7d".data).asString

/-- `LockSpecification.env_hash()`. -/
def LockSpecification.env_hash (spec : LockSpecification) : String :=
  sha256Hex (envSpecJson spec)

/-! ## The lock compiler (src/coman/lock.py, `create_lockfile_from_spec`, lines 230-292)

```python
def create_lockfile_from_spec(conda: Conda, lock_spec: LockSpecification) -> List[str]:
    dry_run_install = solve_specs_for_arch(conda, lock_spec)
    lockfile_contents = [
        "# Generated by conda-lock.",
        f"# platform: {lock_spec.platform}",
        f"# env_hash: {lock_spec.env_hash()}\n",
        "@EXPLICIT\n",
    ]
    fetch_actions = dry_run_install["actions"]["FETCH"]
    link_actions = dry_run_install["actions"]["LINK"]
    for link in link_actions:
        if conda.is_micromamba():
            link["url_base"] = fn_to_dist_name(link["url"])
            link["dist_name"] = fn_to_dist_name(link["fn"])
            link["platform"] = link["subdir"]
            link["channel"] = urllib.parse.urlsplit(link["channel"]).path.split('/')[-2]
        else:
            link["url_base"] = f"{link['base_url']}/{link['platform']}/{link['dist_name']}"
        link["url"] = f"{link['url_base']}.tar.bz2"
        link["url_conda"] = f"{link['url_base']}.conda"
    fetch_by_dist_name = {fn_to_dist_name(pkg["fn"]): pkg for pkg in fetch_actions}
    for pkg in link_actions:
        dist_name = (fn_to_dist_name(pkg["fn"]) if conda.is_micromamba() else pkg["dist_name"])
        if dist_name in fetch_by_dist_name:
            url = fetch_by_dist_name[dist_name]["url"]
            md5 = fetch_by_dist_name[dist_name]["md5"]
            lockfile_contents.append(f"{url}#{md5}")
        else:
            url = pkg["url"]
            lockfile_contents.append(url)
    def sanitize_lockfile_line(line):
        line = line.strip()
        if line == "":
            return "#"
        else:
            return line
    lockfile_contents = [sanitize_lockfile_line(line) for line in lockfile_contents]
    return lockfile_contents
```

The loosely-typed `LINK`/`FETCH` dicts become records carrying all the fields
either backend uses; `mm` is `conda.is_micromamba()`; the `RuntimeError` of
`fn_to_dist_name` and the `IndexError` of `.split('/')[-2]` make the compiler
`Option`-valued.  The solver call itself is the external oracle: the compiler
is embedded as a function of its `DryRunResult`. -/

/-- One `LINK` action record (fields of both backends; `url_base`/`url_conda`
are the keys the compiler itself adds, carried as fields from the start). -/
structure Link where
  fn : String
  url : String
  base_url : String
  platform : String
  subdir : String
  channel : String
  dist_name : String
  url_base : String
  url_conda : String
  deriving DecidableEq, Repr

/-- One `FETCH` action record. -/
structure Fetch where
  fn : String
  url : String
  md5 : String
  deriving DecidableEq, Repr

/-- A dry-run solver result: the `FETCH` and `LINK` action lists. -/
structure DryRunResult where
  fetch : List Fetch
  link : List Link
  deriving DecidableEq, Repr

/-- The `.path` of `urllib.parse.urlsplit` restricted to the URL shapes the
solver reports (`scheme://netloc/path`, no params), with query and fragment
stripped; a URL with no `://` is all path.  `urllib` is outside this
repository and modelled at its interface. -/
def urlsplitPath (u : String) : String :=
  match findSub "://".data ((u.data.takeWhile (fun c => c ≠ '#')).takeWhile (fun c => c ≠ '?')) with
  | some (_, rest) => (rest.dropWhile (fun c => c ≠ '/')).asString
  | none => ((u.data.takeWhile (fun c => c ≠ '#')).takeWhile (fun c => c ≠ '?')).asString

/-- `urlsplit(channel).path.split('/')[-2]`; `none` models the `IndexError`
when the path has fewer than two `/`-separated parts. -/
def channelFromUrl (u : String) : Option String :=
  if 2 ≤ ((urlsplitPath u).splitOn "/").length then
    some (((urlsplitPath u).splitOn "/").getD (((urlsplitPath u).splitOn "/").length - 2) "")
  else none

/-- The first `for link in link_actions` loop body: set `url_base`, `dist_name`,
`platform`, `channel` (micromamba) or `url_base` (other backends), then rewrite
`url` and add `url_conda`. -/
def processLink (mm : Bool) (l : Link) : Option Link :=
  if mm then
    match fn_to_dist_name l.url, fn_to_dist_name l.fn, channelFromUrl l.channel with
    | some ub, some dn, some ch =>
      some { l with url_base := ub, dist_name := dn, platform := l.subdir, channel := ch,
                    url := ub ++ ".tar.bz2", url_conda := ub ++ ".conda" }
    | _, _, _ => none
  else
    some { l with
      url_base := l.base_url ++ "/" ++ l.platform ++ "/" ++ l.dist_name,
      url := l.base_url ++ "/" ++ l.platform ++ "/" ++ l.dist_name ++ ".tar.bz2",
      url_conda := l.base_url ++ "/" ++ l.platform ++ "/" ++ l.dist_name ++ ".conda" }

def processLinks (mm : Bool) : List Link → Option (List Link)
  | [] => some []
  | l :: ls =>
    match processLink mm l with
    | some l2 => (processLinks mm ls).map (fun rest => l2 :: rest)
    | none => none

/-- Python dict insert: overwrite in place or append. -/
def insertFetch (k : String) (v : Fetch) : List (String × Fetch) → List (String × Fetch)
  | [] => [(k, v)]
  | (k2, v2) :: rest =>
    if k2 = k then (k2, v) :: rest else (k2, v2) :: insertFetch k v rest

/-- `{fn_to_dist_name(pkg["fn"]): pkg for pkg in fetch_actions}` (later entries
with the same normalized name overwrite earlier ones). -/
def buildFetchTblGo (tbl : List (String × Fetch)) : List Fetch → Option (List (String × Fetch))
  | [] => some tbl
  | f :: fs =>
    match fn_to_dist_name f.fn with
    | some k => buildFetchTblGo (insertFetch k f tbl) fs
    | none => none

def buildFetchTbl (l : List Fetch) : Option (List (String × Fetch)) :=
  buildFetchTblGo [] l

def lookupFetch (k : String) : List (String × Fetch) → Option Fetch
  | [] => none
  | (k2, v) :: rest => if k2 = k then some v else lookupFetch k rest

/-- The second `for pkg in link_actions` loop body: emit `url#md5` from the
`FETCH` counterpart found by explicit key lookup, or fall back to the `LINK`
entry's own (rewritten) URL. -/
def pkgLine (mm : Bool) (tbl : List (String × Fetch)) (l : Link) : Option String :=
  match (if mm then fn_to_dist_name l.fn else some l.dist_name) with
  | some dn =>
    match lookupFetch dn tbl with
    | some fe => some (fe.url ++ "#" ++ fe.md5)
    | none => some l.url
  | none => none

def pkgLines (mm : Bool) (tbl : List (String × Fetch)) : List Link → Option (List String)
  | [] => some []
  | l :: ls =>
    match pkgLine mm tbl l with
    | some s => (pkgLines mm tbl ls).map (fun rest => s :: rest)
    | none => none

/-- `sanitize_lockfile_line`. -/
def sanitize_lockfile_line (line : String) : String :=
  if pyStrip line = "" then "#" else pyStrip line

/-- The fixed 4-line header. -/
def headerLines (spec : LockSpecification) : List String :=
  ["# Generated by conda-lock.",
   "# platform: " ++ spec.platform,
   "# env_hash: " ++ spec.env_hash ++ "\n",
   "@EXPLICIT\n"]

/-- `create_lockfile_from_spec`, as a function of the dry-run result.  The
three `Option.bind`s sequence the three raising program points in program
order: the `LINK` loop, the `FETCH` dict comprehension, the emission loop. -/
def create_lockfile_from_spec (mm : Bool) (d : DryRunResult) (spec : LockSpecification) :
    Option (List String) :=
  (processLinks mm d.link).bind (fun links =>
    (buildFetchTbl d.fetch).bind (fun tbl =>
      (pkgLines mm tbl links).map (fun pls =>
        (headerLines spec ++ pls).map sanitize_lockfile_line)))

/-! ### Lemmas for claim C1 -/

/-- The unique `FETCH` entry whose normalized distribution name is `k`
(unique whenever the normalized names are nodup). -/
def fetchFor (k : String) (l : List Fetch) : Option Fetch :=
  l.find? (fun fe => fn_to_dist_name fe.fn == some k)

theorem processLinks_append (mm : Bool) :
    ∀ l1 l2 : List Link,
      processLinks mm (l1 ++ l2)
        = (processLinks mm l1).bind (fun a => (processLinks mm l2).map (fun b => a ++ b)) := by
  intro l1
  induction l1 with
  | nil =>
    intro l2
    cases hp : processLinks mm l2 <;> simp [processLinks, hp]
  | cons l ls ih =>
    intro l2
    rw [List.cons_append]
    simp only [processLinks]
    cases hp : processLink mm l with
    | none => simp
    | some l3 =>
      rw [ih l2]
      cases processLinks mm ls <;> cases processLinks mm l2 <;> simp

theorem pkgLines_append (mm : Bool) (tbl : List (String × Fetch)) :
    ∀ a b : List Link,
      pkgLines mm tbl (a ++ b)
        = (pkgLines mm tbl a).bind (fun x => (pkgLines mm tbl b).map (fun y => x ++ y)) := by
  intro a
  induction a with
  | nil =>
    intro b
    cases hp : pkgLines mm tbl b <;> simp [pkgLines, hp]
  | cons l ls ih =>
    intro b
    rw [List.cons_append]
    simp only [pkgLines]
    cases hp : pkgLine mm tbl l with
    | none => simp
    | some s =>
      rw [ih b]
      cases pkgLines mm tbl ls <;> cases pkgLines mm tbl b <;> simp

theorem buildFetchTblGo_eq_none_iff :
    ∀ (fs : List Fetch) (tbl0 : List (String × Fetch)),
      buildFetchTblGo tbl0 fs = none ↔ ∃ fe ∈ fs, fn_to_dist_name fe.fn = none := by
  intro fs
  induction fs with
  | nil => intro tbl0; simp [buildFetchTblGo]
  | cons f fs ih =>
    intro tbl0
    simp only [buildFetchTblGo]
    cases hk : fn_to_dist_name f.fn with
    | none => simp [hk]
    | some k => simp [hk, ih]

theorem lookupFetch_insertFetch (k k2 : String) (v : Fetch) :
    ∀ tbl, lookupFetch k (insertFetch k2 v tbl)
      = if k2 = k then some v else lookupFetch k tbl := by
  intro tbl
  induction tbl with
  | nil => simp [insertFetch, lookupFetch]
  | cons p rest ih =>
    obtain ⟨k3, v3⟩ := p
    by_cases h3 : k3 = k2
    · subst h3
      by_cases hk : k3 = k
      · subst hk; simp [insertFetch, lookupFetch]
      · simp [insertFetch, lookupFetch, hk]
    · by_cases hk : k3 = k
      · subst hk
        simp [insertFetch, lookupFetch, h3, Ne.symm h3]
      · simp [insertFetch, lookupFetch, h3, hk, ih]

theorem fetchFor_mem_keys (k : String) (fs : List Fetch) (fe : Fetch)
    (h : fetchFor k fs = some fe) :
    some k ∈ fs.map (fun fe => fn_to_dist_name fe.fn) := by
  unfold fetchFor at h
  have hmem : fe ∈ fs := List.mem_of_find?_eq_some h
  have hp := List.find?_some h
  simp only [beq_iff_eq] at hp
  exact List.mem_map.mpr ⟨fe, hmem, hp⟩

theorem buildFetchTblGo_lookup :
    ∀ (fs : List Fetch) (tbl0 tbl : List (String × Fetch)),
      buildFetchTblGo tbl0 fs = some tbl →
      (fs.map (fun fe => fn_to_dist_name fe.fn)).Nodup →
      ∀ k, lookupFetch k tbl = (fetchFor k fs).orElse (fun _ => lookupFetch k tbl0) := by
  intro fs
  induction fs with
  | nil =>
    intro tbl0 tbl h _ k
    simp only [buildFetchTblGo, Option.some.injEq] at h
    subst h
    simp [fetchFor, Option.orElse]
  | cons f fs ih =>
    intro tbl0 tbl h hnd k
    simp only [buildFetchTblGo] at h
    cases hk : fn_to_dist_name f.fn with
    | none => rw [hk] at h; exact absurd h (by simp)
    | some kf =>
      rw [hk] at h
      have hnd2 := hnd
      rw [List.map_cons, List.nodup_cons] at hnd2
      have hlk := ih (insertFetch kf f tbl0) tbl h hnd2.2 k
      by_cases hkk : kf = k
      · subst hkk
        have hff : fetchFor kf (f :: fs) = some f := by
          simp [fetchFor, List.find?_cons, hk]
        rw [hff]
        have hnone : fetchFor kf fs = none := by
          cases hf2 : fetchFor kf fs with
          | none => rfl
          | some fe2 =>
            rw [hk] at hnd2
            exact absurd (fetchFor_mem_keys kf fs fe2 hf2) hnd2.1
        rw [hnone] at hlk
        simp only [Option.orElse] at hlk ⊢
        rw [hlk, lookupFetch_insertFetch, if_pos rfl]
      · have hff : fetchFor k (f :: fs) = fetchFor k fs := by
          simp only [fetchFor, List.find?_cons]
          have : (fn_to_dist_name f.fn == some k) = false := by
            rw [hk]; simpa using hkk
          rw [this]
        rw [hff, hlk]
        cases fetchFor k fs with
        | some fe2 => simp [Option.orElse]
        | none =>
          simp only [Option.orElse]
          rw [lookupFetch_insertFetch, if_neg hkk]

theorem fetchFor_perm (f1 f2 : List Fetch) (hp : f1.Perm f2)
    (hnd : (f1.map (fun fe => fn_to_dist_name fe.fn)).Nodup) :
    ∀ k, fetchFor k f1 = fetchFor k f2 := by
  induction hp with
  | nil => intro k; rfl
  | cons x p ih =>
    intro k
    simp only [fetchFor, List.find?_cons]
    cases hx : (fn_to_dist_name x.fn == some k) with
    | true => rfl
    | false =>
      have hnd2 := hnd
      rw [List.map_cons, List.nodup_cons] at hnd2
      exact ih hnd2.2 k
  | swap x y t =>
    intro k
    simp only [fetchFor, List.find?_cons]
    cases hy : (fn_to_dist_name y.fn == some k) with
    | true =>
      cases hx : (fn_to_dist_name x.fn == some k) with
      | true =>
        have hxe := beq_iff_eq.mp hx
        have hye := beq_iff_eq.mp hy
        rw [List.map_cons, List.map_cons, List.nodup_cons] at hnd
        exact absurd (List.mem_cons.mpr (Or.inl (hye.trans hxe.symm))) hnd.1
      | false => simp
    | false =>
      cases hx : (fn_to_dist_name x.fn == some k) with
      | true => simp
      | false => simp
  | trans p1 p2 ih1 ih2 =>
    intro k
    have hnd2 : _ := (List.Perm.nodup_iff (p1.map (fun fe => fn_to_dist_name fe.fn))).mp hnd
    rw [ih1 hnd k, ih2 hnd2 k]

theorem pkgLine_ext (mm : Bool) (t1 t2 : List (String × Fetch))
    (hl : ∀ k, lookupFetch k t1 = lookupFetch k t2) (l : Link) :
    pkgLine mm t1 l = pkgLine mm t2 l := by
  unfold pkgLine
  cases (if mm then fn_to_dist_name l.fn else some l.dist_name) with
  | none => rfl
  | some dn => simp only [hl]

theorem pkgLines_ext (mm : Bool) (t1 t2 : List (String × Fetch))
    (hl : ∀ k, lookupFetch k t1 = lookupFetch k t2) :
    ∀ ls, pkgLines mm t1 ls = pkgLines mm t2 ls := by
  intro ls
  induction ls with
  | nil => rfl
  | cons l ls ih => simp only [pkgLines, pkgLine_ext mm t1 t2 hl l, ih]

/-! ### Theorem for claim C1 -/

/-- C1: the lock compiler is deterministic and order-disciplined.
Part 1: compiling twice from the same `DryRunResult` and `LockSpecification`
yields identical line lists (immediate, since the embedding is a pure function
of the dry-run result — the Python body reads no ambient state beyond its
arguments).  Part 2: the package lines follow the original `LINK` action order:
the manifest for `LINK` actions `l1 ++ l2` is exactly the manifest for `l1`
followed by the sanitized lines of `l2`, one per action, in order.  Part 3: the
output does not depend on the `FETCH` order used to build the lookup map — for
any permutation of the `FETCH` actions (with their normalized names distinct,
so the map contents are the same sets), the output is byte-identical. -/
theorem create_lockfile_deterministic :
    (∀ (mm : Bool) (d : DryRunResult) (spec : LockSpecification),
      create_lockfile_from_spec mm d spec = create_lockfile_from_spec mm d spec) ∧
    (∀ (mm : Bool) (f : List Fetch) (l1 l2 : List Link) (spec : LockSpecification),
      create_lockfile_from_spec mm ⟨f, l1 ++ l2⟩ spec
        = (create_lockfile_from_spec mm ⟨f, l1⟩ spec).bind (fun out1 =>
            ((processLinks mm l2).bind (fun ls2 =>
              (buildFetchTbl f).bind (fun tbl => pkgLines mm tbl ls2))).map (fun pls =>
                out1 ++ pls.map sanitize_lockfile_line))) ∧
    (∀ (mm : Bool) (f1 f2 : List Fetch) (links : List Link) (spec : LockSpecification),
      f1.Perm f2 →
      (f1.map (fun fe => fn_to_dist_name fe.fn)).Nodup →
      create_lockfile_from_spec mm ⟨f1, links⟩ spec
        = create_lockfile_from_spec mm ⟨f2, links⟩ spec) := by
  refine ⟨fun _ _ _ => rfl, ?_, ?_⟩
  · intro mm f l1 l2 spec
    unfold create_lockfile_from_spec
    rw [processLinks_append]
    cases hp1 : processLinks mm l1 with
    | none => simp
    | some a =>
      simp only [Option.some_bind]
      cases hp2 : processLinks mm l2 with
      | none =>
        simp only [Option.map_none', Option.none_bind]
        cases ht : buildFetchTbl f with
        | none => simp
        | some tbl =>
          simp only [Option.some_bind]
          cases hq : pkgLines mm tbl a <;> simp
      | some b =>
        simp only [Option.map_some', Option.some_bind]
        cases ht : buildFetchTbl f with
        | none => simp
        | some tbl =>
          simp only [Option.some_bind]
          rw [pkgLines_append]
          cases hq1 : pkgLines mm tbl a with
          | none => simp
          | some x =>
            simp only [Option.some_bind]
            cases hq2 : pkgLines mm tbl b with
            | none => simp
            | some y => simp [List.map_append, List.append_assoc]
  · intro mm f1 f2 links spec hperm hnd
    by_cases hbad : ∃ fe ∈ f1, fn_to_dist_name fe.fn = none
    · have hb1 : buildFetchTbl f1 = none :=
        (buildFetchTblGo_eq_none_iff f1 []).mpr hbad
      have hb2 : buildFetchTbl f2 = none :=
        (buildFetchTblGo_eq_none_iff f2 []).mpr
          (by rcases hbad with ⟨fe, hm, hf⟩; exact ⟨fe, (hperm.mem_iff).mp hm, hf⟩)
      unfold create_lockfile_from_spec
      rw [hb1, hb2]
    · cases hb1 : buildFetchTbl f1 with
      | none => exact absurd ((buildFetchTblGo_eq_none_iff f1 []).mp hb1) hbad
      | some t1 =>
        cases hb2 : buildFetchTbl f2 with
        | none =>
          refine absurd ((buildFetchTblGo_eq_none_iff f2 []).mp hb2) ?_
          rintro ⟨fe, hm, hf⟩
          exact hbad ⟨fe, (hperm.mem_iff).mpr hm, hf⟩
        | some t2 =>
          have hnd2 : (f2.map (fun fe => fn_to_dist_name fe.fn)).Nodup :=
            (List.Perm.nodup_iff (hperm.map (fun fe => fn_to_dist_name fe.fn))).mp hnd
          have hlk : ∀ k, lookupFetch k t1 = lookupFetch k t2 := by
            intro k
            rw [buildFetchTblGo_lookup f1 [] t1 hb1 hnd k,
                buildFetchTblGo_lookup f2 [] t2 hb2 hnd2 k,
                fetchFor_perm f1 f2 hperm hnd k]
          unfold create_lockfile_from_spec
          rw [hb1, hb2]
          cases hpl : processLinks mm links with
          | none => simp
          | some ls =>
            simp only [Option.some_bind]
            rw [pkgLines_ext mm t1 t2 hlk ls]

/-- Witness for C1 part 3 at a concrete two-element `FETCH` permutation. -/
theorem create_lockfile_deterministic_witness :
    create_lockfile_from_spec true
        ⟨[⟨"p-1-0.conda", "u1", "m1"⟩, ⟨"q-2-0.tar.bz2", "u2", "m2"⟩],
         [⟨"p-1-0.conda", "https://h/c/s/p-1-0.conda", "", "", "s", "https://h/c/s", "", "", ""⟩]⟩
        ⟨["python"], ["conda-forge"], "linux-64"⟩
      = create_lockfile_from_spec true
        ⟨[⟨"q-2-0.tar.bz2", "u2", "m2"⟩, ⟨"p-1-0.conda", "u1", "m1"⟩],
         [⟨"p-1-0.conda", "https://h/c/s/p-1-0.conda", "", "", "s", "https://h/c/s", "", "", ""⟩]⟩
        ⟨["python"], ["conda-forge"], "linux-64"⟩ :=
  create_lockfile_deterministic.2.2 true
    [⟨"p-1-0.conda", "u1", "m1"⟩, ⟨"q-2-0.tar.bz2", "u2", "m2"⟩]
    [⟨"q-2-0.tar.bz2", "u2", "m2"⟩, ⟨"p-1-0.conda", "u1", "m1"⟩]
    [⟨"p-1-0.conda", "https://h/c/s/p-1-0.conda", "", "", "s", "https://h/c/s", "", "", ""⟩]
    ⟨["python"], ["conda-forge"], "linux-64"⟩
    (List.Perm.swap _ _ _) (by decide)

/-! ### Lemmas for claim C3

The serialization layer is inverted token by token: `unescOne` decodes the
first JSON string-escape token, and round-trips `jsonEscChar`, which makes the
escape code prefix-free and hence the whole canonical serialization injective
in the channels list. -/

/-- Value of one lowercase hex digit (inverse of `hexDigitChar` on 0..15). -/
def hexVal (c : Char) : Nat :=
  if c = '0' then 0 else if c = '1' then 1 else if c = '2' then 2 else if c = '3' then 3
  else if c = '4' then 4 else if c = '5' then 5 else if c = '6' then 6 else if c = '7' then 7
  else if c = '8' then 8 else if c = '9' then 9 else if c = 'a' then 10 else if c = 'b' then 11
  else if c = 'c' then 12 else if c = 'd' then 13 else if c = 'e' then 14 else 15

/-- Value of a 4-digit hex quad. -/
def quadVal (a b c d : Char) : Nat :=
  4096 * hexVal a + 256 * hexVal b + 16 * hexVal c + hexVal d

/-- Decode the first `jsonEscChar` token of a stream. -/
def unescOne (l : List Char) : Option (Char × List Char) :=
  match l with
  | [] => none
  | c :: rest =>
    if c = '\\' then
      match rest with
      | [] => none
      | k :: rest2 =>
        if k = '"' then some ('"', rest2)
        else if k = '\\' then some ('\\', rest2)
        else if k = 'b' then some ('\x08', rest2)
        else if k = 'f' then some ('\x0c', rest2)
        else if k = 'n' then some ('\n', rest2)
        else if k = 'r' then some ('\x0d', rest2)
        else if k = 't' then some ('\t', rest2)
        else if k = 'u' then
          match rest2 with
          | a :: b :: c3 :: d :: rest3 =>
            if 55296 ≤ quadVal a b c3 d ∧ quadVal a b c3 d < 56320 then
              match rest3 with
              | e1 :: e2 :: a2 :: b2 :: c2 :: d2 :: rest4 =>
                if e1 = '\\' ∧ e2 = 'u' then
                  some (Char.ofNat (65536 + 1024 * (quadVal a b c3 d - 55296) +
                    (quadVal a2 b2 c2 d2 - 56320)), rest4)
                else none
              | _ => none
            else some (Char.ofNat (quadVal a b c3 d), rest3)
          | _ => none
        else none
    else some (c, rest)

theorem hexVal_hexDigitChar : ∀ n : Nat, n < 16 → hexVal (hexDigitChar n) = n := by decide

theorem hex4_eq (n : Nat) :
    hex4 n = [hexDigitChar ((n >>> 12) &&& 15), hexDigitChar ((n >>> 8) &&& 15),
              hexDigitChar ((n >>> 4) &&& 15), hexDigitChar (n &&& 15)] := rfl

theorem and_fifteen (x : Nat) : x &&& 15 = x % 16 := by
  simpa using Nat.and_pow_two_sub_one_eq_mod x 4

theorem quadVal_hex4 (n : Nat) (h : n < 65536) :
    quadVal (hexDigitChar ((n >>> 12) &&& 15)) (hexDigitChar ((n >>> 8) &&& 15))
      (hexDigitChar ((n >>> 4) &&& 15)) (hexDigitChar (n &&& 15)) = n := by
  unfold quadVal
  rw [hexVal_hexDigitChar _ (by rw [and_fifteen]; omega),
      hexVal_hexDigitChar _ (by rw [and_fifteen]; omega),
      hexVal_hexDigitChar _ (by rw [and_fifteen]; omega),
      hexVal_hexDigitChar _ (by rw [and_fifteen]; omega)]
  rw [and_fifteen, and_fifteen, and_fifteen, and_fifteen,
      Nat.shiftRight_eq_div_pow, Nat.shiftRight_eq_div_pow, Nat.shiftRight_eq_div_pow]
  norm_num
  omega

theorem char_toNat_valid (c : Char) :
    c.toNat < 55296 ∨ (57343 < c.toNat ∧ c.toNat < 1114112) := c.valid

/-- The single-token round trip: decoding the first token of
`jsonEscChar c ++ r` recovers exactly `c` and `r`. -/
theorem unescOne_jsonEscChar (c : Char) (r : List Char) :
    unescOne (jsonEscChar c ++ r) = some (c, r) := by
  unfold jsonEscChar
  split_ifs with h1 h2 h3 h4 h5 h6 h7 h8 h9
  · subst h1; simp [unescOne]
  · subst h2; simp [unescOne]
  · have : c = '\x08' := by
      have := Char.ofNat_toNat c
      rw [h3] at this
      exact this.symm
    subst this
    simp [unescOne]
  · have : c = '\x0c' := by
      have := Char.ofNat_toNat c
      rw [h4] at this
      exact this.symm
    subst this
    simp [unescOne]
  · subst h5; simp [unescOne]
  · have : c = '\x0d' := by
      have := Char.ofNat_toNat c
      rw [h6] at this
      exact this.symm
    subst this
    simp [unescOne]
  · subst h7; simp [unescOne]
  · -- single `\uXXXX` escape
    rw [hex4_eq]
    have hq := quadVal_hex4 c.toNat h9
    have hval := char_toNat_valid c
    have hsur : ¬(55296 ≤ c.toNat ∧ c.toNat < 56320) := by
      rcases hval with h | h
      · omega
      · omega
    simp only [unescOne, List.cons_append, List.append_assoc]
    simp
    rw [if_neg (by rw [hq]; exact hsur)]
    rw [hq, Char.ofNat_toNat]
  · -- surrogate-pair escape
    rw [hex4_eq, hex4_eq]
    have hval := char_toNat_valid c
    have h65536 : 65536 ≤ c.toNat := by omega
    have hhi : 55296 + (c.toNat - 65536) / 1024 < 65536 := by
      rcases hval with h | h
      · omega
      · omega
    have hq1 := quadVal_hex4 (55296 + (c.toNat - 65536) / 1024) hhi
    have hlo : 56320 + (c.toNat - 65536) % 1024 < 65536 := by omega
    have hq2 := quadVal_hex4 (56320 + (c.toNat - 65536) % 1024) hlo
    have hsur : 55296 ≤ 55296 + (c.toNat - 65536) / 1024 ∧
        55296 + (c.toNat - 65536) / 1024 < 56320 := by
      constructor
      · omega
      · rcases hval with h | h
        · omega
        · omega
    simp only [unescOne, List.cons_append, List.append_assoc]
    simp
    rw [if_pos (by rw [hq1]; exact hsur)]
    rw [hq1, hq2]
    have hdec : 65536 + 1024 * (55296 + (c.toNat - 65536) / 1024 - 55296) +
        (56320 + (c.toNat - 65536) % 1024 - 56320) = c.toNat := by omega
    rw [hdec, Char.ofNat_toNat]
  · -- plain printable character
    have hc : ¬ c = '\\' := h2
    simp [unescOne, hc]

/-- The escape code is prefix-free: equal continuations decode equally. -/
theorem jsonEscChar_prefix_inj (c1 c2 : Char) (r1 r2 : List Char)
    (h : jsonEscChar c1 ++ r1 = jsonEscChar c2 ++ r2) : c1 = c2 ∧ r1 = r2 := by
  have h1 := unescOne_jsonEscChar c1 r1
  rw [h, unescOne_jsonEscChar c2 r2] at h1
  cases h1
  exact ⟨rfl, rfl⟩

theorem jsonEscChar_ne_nil (c : Char) : jsonEscChar c ≠ [] := by
  unfold jsonEscChar
  split_ifs <;> simp

/-- No escape token starts with a raw quote, so the closing quote of a JSON
string literal is unambiguous. -/
theorem jsonEscChar_head_ne_quote (c : Char) (hd : Char) (t : List Char)
    (he : jsonEscChar c = hd :: t) : hd ≠ '"' := by
  unfold jsonEscChar at he
  split_ifs at he with h1 h2 h3 h4 h5 h6 h7 h8 h9 <;>
    first
      | (cases he; decide)
      | (cases he; exact fun hq => h1 hq)

theorem escBody_cons (c : Char) (t : List Char) :
    escBody (c :: t) = jsonEscChar c ++ escBody t := by
  simp [escBody]

theorem escBody_quote_inj :
    ∀ (l1 l2 : List Char) (r1 r2 : List Char),
      escBody l1 ++ ('"' :: r1) = escBody l2 ++ ('"' :: r2) → l1 = l2 ∧ r1 = r2 := by
  intro l1
  induction l1 with
  | nil =>
    intro l2 r1 r2 h
    cases l2 with
    | nil =>
      simp only [escBody, List.map_nil, List.flatten_nil, List.nil_append] at h
      cases h
      exact ⟨rfl, rfl⟩
    | cons c2 t2 =>
      exfalso
      rw [escBody_cons, List.append_assoc] at h
      simp only [escBody, List.map_nil, List.flatten_nil, List.nil_append] at h
      rcases he : jsonEscChar c2 with _ | ⟨hd, t⟩
      · exact jsonEscChar_ne_nil c2 he
      · rw [he, List.cons_append] at h
        injection h with hq _
        exact jsonEscChar_head_ne_quote c2 hd t he hq.symm
  | cons c1 t1 ih =>
    intro l2 r1 r2 h
    cases l2 with
    | nil =>
      exfalso
      rw [escBody_cons, List.append_assoc] at h
      simp only [escBody, List.map_nil, List.flatten_nil, List.nil_append] at h
      rcases he : jsonEscChar c1 with _ | ⟨hd, t⟩
      · exact jsonEscChar_ne_nil c1 he
      · rw [he, List.cons_append] at h
        injection h with hq _
        exact jsonEscChar_head_ne_quote c1 hd t he hq
    | cons c2 t2 =>
      rw [escBody_cons, escBody_cons, List.append_assoc, List.append_assoc] at h
      rcases jsonEscChar_prefix_inj c1 c2 _ _ h with ⟨hc, hr⟩
      rcases ih t2 r1 r2 hr with ⟨ht, hrr⟩
      exact ⟨by rw [hc, ht], hrr⟩

/-- JSON string literals are prefix-injective. -/
theorem jsonStr_prefix_inj (s1 s2 : String) (r1 r2 : List Char)
    (h : jsonStr s1 ++ r1 = jsonStr s2 ++ r2) : s1 = s2 ∧ r1 = r2 := by
  unfold jsonStr at h
  rw [List.cons_append, List.cons_append] at h
  injection h with _ h
  simp only [List.append_eq] at h
  simp only [List.append_assoc, List.singleton_append] at h
  rcases escBody_quote_inj s1.data s2.data r1 r2 h with ⟨hd, hr⟩
  exact ⟨String.ext hd, hr⟩

/-- JSON arrays of strings are prefix-injective (after the opening bracket). -/
theorem jsonListInner_inj :
    ∀ (L1 L2 : List String) (r1 r2 : List Char),
      jsonListInner L1 ++ r1 = jsonListInner L2 ++ r2 → L1 = L2 ∧ r1 = r2 := by
  intro L1
  induction L1 with
  | nil =>
    intro L2 r1 r2 h
    cases L2 with
    | nil =>
      simp only [jsonListInner, List.cons_append, List.nil_append] at h
      cases h
      exact ⟨rfl, rfl⟩
    | cons x2 t2 =>
      exfalso
      cases t2 <;>
        (simp only [jsonListInner, jsonStr, List.cons_append, List.append_assoc,
          List.nil_append] at h; injection h with hq _; exact absurd hq (by decide))
  | cons x1 t1 ih =>
    intro L2 r1 r2 h
    cases L2 with
    | nil =>
      exfalso
      cases t1 <;>
        (simp only [jsonListInner, jsonStr, List.cons_append, List.append_assoc,
          List.nil_append] at h; injection h with hq _; exact absurd hq (by decide))
    | cons x2 t2 =>
      cases t1 with
      | nil =>
        cases t2 with
        | nil =>
          simp only [jsonListInner, List.append_assoc] at h
          rcases jsonStr_prefix_inj x1 x2 _ _ h with ⟨hx, hr⟩
          rw [List.singleton_append, List.singleton_append] at hr
          cases hr
          exact ⟨by rw [hx], rfl⟩
        | cons y2 t2' =>
          exfalso
          simp only [jsonListInner, List.append_assoc] at h
          rcases jsonStr_prefix_inj x1 x2 _ _ h with ⟨_, hr⟩
          rw [List.singleton_append] at hr
          injection hr with hq _
          exact absurd hq (by decide)
      | cons y1 t1' =>
        cases t2 with
        | nil =>
          exfalso
          simp only [jsonListInner, List.append_assoc] at h
          rcases jsonStr_prefix_inj x1 x2 _ _ h with ⟨_, hr⟩
          rw [List.singleton_append] at hr
          injection hr with hq _
          exact absurd hq (by decide)
        | cons y2 t2' =>
          simp only [jsonListInner, List.append_assoc] at h
          rcases jsonStr_prefix_inj x1 x2 _ _ h with ⟨hx, hr⟩
          have hr2 := List.append_cancel_left hr
          rcases ih (y2 :: t2') r1 r2 hr2 with ⟨ht, hrr⟩
          exact ⟨by rw [hx, ht], hrr⟩

theorem asString_data (l : List Char) : (List.asString l).data = l := rfl

/-- The canonical serialization determines the channels list: two
specifications with the same specs and platform but different channel lists
serialize differently. -/
theorem envSpecJson_channels_inj (s ch1 ch2 : List String) (p : String)
    (h : envSpecJson ⟨s, ch1, p⟩ = envSpecJson ⟨s, ch2, p⟩) : ch1 = ch2 := by
  unfold envSpecJson at h
  have hl := congrArg String.data h
  rw [asString_data, asString_data] at hl
  simp only [List.append_assoc] at hl
  have hl2 := List.append_cancel_left hl
  simp only [jsonStrList, List.cons_append] at hl2
  injection hl2 with _ hl3
  exact (jsonListInner_inj ch1 ch2 _ _ hl3).1

theorem pySorted_eq_of_perm (s1 s2 : List String) (h : s1.Perm s2) :
    pySorted s1 = pySorted s2 :=
  List.eq_of_perm_of_sorted
    ((List.perm_insertionSort _ s1).trans (h.trans (List.perm_insertionSort _ s2).symm))
    (List.sorted_insertionSort _ s1) (List.sorted_insertionSort _ s2)

/-- Two distinct strings hashing equal under SHA-256. -/
def Sha256Collision (a b : String) : Prop :=
  a ≠ b ∧ sha256Hex a = sha256Hex b

/-- C3: `env_hash` order properties.  Part 1: same platform, same channels in
the same order, specs permuted — the hashes are equal (specs are sorted before
serialization, and sorting by the total lexicographic order is determined by
the multiset).  Part 2: channels permuted but in a different order — the
canonical serializations always differ (channel order is preserved and the
serialization is injective in the channels list), hence the hashes differ
except in the mathematically unavoidable case that the two distinct
serializations form a SHA-256 collision.  Part 3: at a concrete pair of
specifications differing only in channel order, the two SHA-256 hashes are
computed and differ. -/
theorem env_hash_order_properties :
    (∀ (s1 s2 ch : List String) (p : String), s1.Perm s2 →
      LockSpecification.env_hash ⟨s1, ch, p⟩ = LockSpecification.env_hash ⟨s2, ch, p⟩) ∧
    (∀ (s ch1 ch2 : List String) (p : String), ch1.Perm ch2 → ch1 ≠ ch2 →
      envSpecJson ⟨s, ch1, p⟩ ≠ envSpecJson ⟨s, ch2, p⟩ ∧
      (LockSpecification.env_hash ⟨s, ch1, p⟩ ≠ LockSpecification.env_hash ⟨s, ch2, p⟩ ∨
        Sha256Collision (envSpecJson ⟨s, ch1, p⟩) (envSpecJson ⟨s, ch2, p⟩))) ∧
    LockSpecification.env_hash ⟨[], ["a", "b"], "x"⟩
      ≠ LockSpecification.env_hash ⟨[], ["b", "a"], "x"⟩ := by
  refine ⟨?_, ?_, by decide⟩
  · intro s1 s2 ch p h
    unfold LockSpecification.env_hash envSpecJson
    rw [pySorted_eq_of_perm s1 s2 h]
  · intro s ch1 ch2 p _hperm hne
    have hser : envSpecJson ⟨s, ch1, p⟩ ≠ envSpecJson ⟨s, ch2, p⟩ :=
      fun h => hne (envSpecJson_channels_inj s ch1 ch2 p h)
    refine ⟨hser, ?_⟩
    by_cases hh : LockSpecification.env_hash ⟨s, ch1, p⟩
        = LockSpecification.env_hash ⟨s, ch2, p⟩
    · exact Or.inr ⟨hser, hh⟩
    · exact Or.inl hh

/-- Witness for C3 at concrete specifications. -/
theorem env_hash_order_properties_witness :
    LockSpecification.env_hash ⟨["b", "a"], ["c"], "x"⟩
        = LockSpecification.env_hash ⟨["a", "b"], ["c"], "x"⟩ ∧
    (envSpecJson ⟨[], ["a", "b"], "x"⟩ ≠ envSpecJson ⟨[], ["b", "a"], "x"⟩ ∧
      (LockSpecification.env_hash ⟨[], ["a", "b"], "x"⟩
          ≠ LockSpecification.env_hash ⟨[], ["b", "a"], "x"⟩ ∨
        Sha256Collision (envSpecJson ⟨[], ["a", "b"], "x"⟩)
          (envSpecJson ⟨[], ["b", "a"], "x"⟩))) :=
  ⟨env_hash_order_properties.1 ["b", "a"] ["a", "b"] ["c"] "x" (List.Perm.swap _ _ _),
   env_hash_order_properties.2.1 [] ["a", "b"] ["b", "a"] "x" (List.Perm.swap _ _ _)
     (by decide)⟩

end Coman
